import Mathlib

/-!
# Verification of the sales_development_agent lead pipeline

A shallow embedding of the Python lead-generation pipeline
(`run.py`, `utils/search.py`, `utils/enrichment.py`, `utils/outreach.py`,
`utils/guardrail.py`, `utils/judge.py`, `utils/database.py`) and proofs of
the specification claims about it.

Python strings are `String` (lists of characters), Python dict values are
`PyVal` (the pipeline only ever stores strings and `None`), dicts are
insertion-ordered association lists with Python assignment semantics, and
the external services (the OpenAI LLM, SerpAPI) are response functions
passed as parameters; a fallible service returns `Except`.  `re.sub` with
an empty replacement is embedded by `subAll`: repeatedly find the leftmost
match of a matcher, splice in the replacement, and continue scanning after
the match (never across the seam, exactly as `re.sub` does).
-/

namespace SalesAgent

/-- A Python value as stored in this pipeline's lead dicts: a string or
`None` (the only non-string value the code ever stores, via
`external_profile_lookup`). -/
inductive PyVal where
  | vstr (s : String)
  | vnone
deriving DecidableEq, Repr

/-- `str(v)`: how an f-string renders the value. -/
def PyVal.pyStr : PyVal → String
  | .vstr s => s
  | .vnone => "None"

/-- Python truthiness of a value (`if v:`). -/
def PyVal.truthy : PyVal → Bool
  | .vstr s => s ≠ ""
  | .vnone => false

/-- A Python dict with string keys, as an insertion-ordered association
list.  All dicts built by the pipeline have distinct keys because they are
built with `dictSet`. -/
def Dict := List (String × PyVal)
deriving DecidableEq, Repr

instance : Membership (String × PyVal) Dict := inferInstanceAs (Membership _ (List _))
instance : HAppend Dict Dict Dict := inferInstanceAs (HAppend (List _) (List _) (List _))

/-- `d.get(k, dflt)`: the value at the first (and, for dicts built by
`dictSet`, only) binding of `k`, else the default. -/
def dictGet (d : Dict) (k : String) (dflt : PyVal) : PyVal :=
  match d with
  | [] => dflt
  | p :: rest => if p.1 = k then p.2 else dictGet rest k dflt

/-- `d[k] = v`: replace in place when the key is present, append otherwise. -/
def dictSet (d : Dict) (k : String) (v : PyVal) : Dict :=
  match d with
  | [] => [(k, v)]
  | p :: rest => if p.1 = k then (k, v) :: rest else p :: dictSet rest k v

/-- `d.update(kvs)` / keyword expansion: apply the assignments in order. -/
def dictUpd (d : Dict) (kvs : List (String × PyVal)) : Dict :=
  kvs.foldl (fun acc kv => dictSet acc kv.1 kv.2) d

/-- The keys of a dict, in insertion order. -/
def dictKeys (d : Dict) : List String := d.map Prod.fst

/-- An item of a Python list that is supposed to hold lead dicts: either a
dict or some other object (the code guards against non-dict items). -/
inductive Item where
  | dict (d : Dict)
  | other (tag : String)
deriving DecidableEq, Repr

/-! ## Character and string helpers (Python `str` methods) -/

/-- Python `str.lower()` (the pipeline only lower-cases ASCII content). -/
def pyLower (l : List Char) : List Char := l.map Char.toLower

/-- Python `str.upper()`. -/
def pyUpper (s : String) : String := String.mk (s.data.map Char.toUpper)

/-- Drop a trailing run of characters satisfying `p`. -/
def rdropWhileP (p : Char → Bool) (l : List Char) : List Char :=
  (l.reverse.dropWhile p).reverse

/-- Python `str.strip()`: drop leading and trailing whitespace. -/
def stripL (l : List Char) : List Char :=
  rdropWhileP Char.isWhitespace (l.dropWhile Char.isWhitespace)

/-- Python `str.strip()` on `String`. -/
def pyStrip (s : String) : String := String.mk (stripL s.data)

/-- Case-insensitive prefix test (`re.IGNORECASE` literal matching). -/
def isPrefixOfCI : List Char → List Char → Bool
  | [], _ => true
  | _ :: _, [] => false
  | p :: ps, c :: cs => p.toLower = c.toLower && isPrefixOfCI ps cs

/-- Case-insensitive substring test. -/
def containsCI (hay pat : String) : Bool :=
  decide (pyLower pat.data <:+: pyLower hay.data)

/-- Python `pat in hay` (case-sensitive substring test). -/
def containsSub (hay pat : String) : Bool :=
  decide (pat.data <:+: hay.data)

/-! ## `re.sub` machinery

A matcher is anchored at a position: applied to a suffix of the text it
returns the length of the match starting there, or `none`.  `subAll`
replays `re.sub`: scan left to right for the leftmost match, emit the
replacement, continue after the match (a zero-length answer counts as no
match; no pattern of the source can match the empty string). -/

/-- One `re.sub(pattern, repl, text)` pass, by structural recursion on a
fuel bound (every step consumes at least one character, so the wrapper's
`l.length` fuel is never exhausted). -/
def subAllGo (m : List Char → Option Nat) (repl : List Char) : Nat → List Char → List Char
  | 0, l => l
  | _ + 1, [] => []
  | fuel + 1, c :: rest =>
    match m (c :: rest) with
    | some (n + 1) => repl ++ subAllGo m repl fuel (rest.drop n)
    | _ => c :: subAllGo m repl fuel rest

/-- One `re.sub(pattern, repl, text)` pass. -/
def subAll (m : List Char → Option Nat) (repl : List Char) (l : List Char) : List Char :=
  subAllGo m repl l.length l

/-- Matcher for a case-insensitive literal (a regex with no operators,
compiled with `re.IGNORECASE`). -/
def litCI (pat : String) : List Char → Option Nat :=
  fun l => if isPrefixOfCI pat.data l then some pat.data.length else none

/-- Sequencing of matchers (concatenation of regex pieces where the first
piece never needs to backtrack). -/
def pseq (m1 m2 : List Char → Option Nat) : List Char → Option Nat :=
  fun l =>
    match m1 l with
    | some n =>
      match m2 (l.drop n) with
      | some k => some (n + k)
      | none => none
    | none => none

/-- Greedy character-class repetition with a minimum count: `\s*` is
`chomp isWhitespace 0`, `\s+` is `chomp isWhitespace 1`, `\w+` is
`chomp isWordChar 1`.  Correct whenever the following regex piece cannot
start with a character of the class, which holds for every use below. -/
def chomp (p : Char → Bool) (lo : Nat) : List Char → Option Nat :=
  fun l =>
    let n := (l.takeWhile p).length
    if lo ≤ n then some n else none

/-- Lazy wildcard up to and including the first occurrence of a literal:
`.*?X` / `[\s\S]*?X` at the end of a pattern (`re.DOTALL` is on, so the
wildcard crosses newlines). -/
def scanFirst (pat : String) : List Char → Option Nat
  | [] => none
  | c :: rest =>
    if isPrefixOfCI pat.data (c :: rest) then some pat.data.length
    else (scanFirst pat rest).map (· + 1)

/-- Lazy wildcard with backtracking: `.*?X` followed by more regex `k`.
Try the earliest occurrence of `X`; if the continuation fails there, let
the wildcard swallow it and try the next occurrence. -/
def scanThen (pat : String) (k : List Char → Option Nat) : List Char → Option Nat
  | [] => none
  | c :: rest =>
    (if isPrefixOfCI pat.data (c :: rest) then
      match k ((c :: rest).drop pat.data.length) with
      | some n => some (pat.data.length + n)
      | none => none
    else none).orElse
      (fun _ => (scanThen pat k rest).map (· + 1))

/-- Greedy wildcard up to and including the last occurrence of a literal:
`.*X` at the end of a pattern under `re.DOTALL`. -/
def scanLast (pat : String) : List Char → Option Nat :=
  fun l =>
    (((List.range (l.length + 1)).filter
        (fun i => isPrefixOfCI pat.data (l.drop i))).getLast?).map
      (· + pat.data.length)

/-- Python `\w`. -/
def isWordChar (c : Char) : Bool := c.isAlphanum || c = '_'

/-! ## `clean_text` (utils/search.py) -/

/-- Matcher for `<[^>]+>`: the HTML-tag stripper's pattern. -/
def tryTag : List Char → Option Nat
  | [] => none
  | c :: rest =>
    if c = '<' then
      let k := (rest.takeWhile (fun x => x ≠ '>')).length
      if 1 ≤ k then
        match rest.drop k with
        | '>' :: _ => some (k + 2)
        | _ => none
      else none
    else none

/-- `function\s+parse_query_string\s*\(.*?\)\s*\{[\s\S]*?\}`. -/
def tryFunctionPat : List Char → Option Nat :=
  pseq (litCI "function") (pseq (chomp Char.isWhitespace 1)
    (pseq (litCI "parse_query_string") (pseq (chomp Char.isWhitespace 0)
      (pseq (litCI "(") (scanThen ")"
        (pseq (chomp Char.isWhitespace 0)
          (pseq (litCI "\x7b") (scanFirst "\x7d"))))))))

/-- `var\s+\w+\s*=\s*.*;` (greedy `.*` under `re.DOTALL`: to the last
semicolon). -/
def tryVarPat : List Char → Option Nat :=
  pseq (litCI "var") (pseq (chomp Char.isWhitespace 1)
    (pseq (chomp isWordChar 1) (pseq (chomp Char.isWhitespace 0)
      (pseq (litCI "=") (pseq (chomp Char.isWhitespace 0) (scanLast ";"))))))

/-- `document\.getElementById\s*\(.*?\)`. -/
def tryGetElementByIdPat : List Char → Option Nat :=
  pseq (litCI "document.getElementById")
    (pseq (chomp Char.isWhitespace 0) (pseq (litCI "(") (scanFirst ")")))

/-- `sessionStorage\.getItem\s*\(.*?\)`. -/
def trySessionGetPat : List Char → Option Nat :=
  pseq (litCI "sessionStorage.getItem")
    (pseq (chomp Char.isWhitespace 0) (pseq (litCI "(") (scanFirst ")")))

/-- `sessionStorage\.setItem\s*\(.*?\)`. -/
def trySessionSetPat : List Char → Option Nat :=
  pseq (litCI "sessionStorage.setItem")
    (pseq (chomp Char.isWhitespace 0) (pseq (litCI "(") (scanFirst ")")))

/-- `Vue\.component\s*\(.*?\)\s*\{[\s\S]*?\}\);`. -/
def tryVuePat : List Char → Option Nat :=
  pseq (litCI "Vue.component") (pseq (chomp Char.isWhitespace 0)
    (pseq (litCI "(") (scanThen ")"
      (pseq (chomp Char.isWhitespace 0)
        (pseq (litCI "\x7b") (scanFirst "\x7d);"))))))

/-- `Copyright\s*©.*All rights reserved` (greedy `.*` under `re.DOTALL`). -/
def tryCopyrightPat : List Char → Option Nat :=
  pseq (litCI "Copyright") (pseq (chomp Char.isWhitespace 0)
    (pseq (litCI "©") (scanLast "All rights reserved")))

/-- The `boilerplate_patterns` of `clean_text`, in source order, each as a
matcher (all are compiled with `re.IGNORECASE | re.DOTALL`). -/
def boilerMatchers : List (List Char → Option Nat) :=
  [ litCI "My Planner", litCI "My Profile", litCI "Recommendations",
    litCI "Sign Out",
    tryFunctionPat, tryVarPat, tryGetElementByIdPat,
    trySessionGetPat, trySessionSetPat, tryVuePat,
    litCI "ShowID", litCI "exhid", litCI "contactid", litCI "chatid",
    tryCopyrightPat,
    litCI "Privacy Policy", litCI "Terms of Use",
    litCI "Skip to main content", litCI "Toggle navigation",
    litCI "There are no available appointments for this exhibitor." ]

/-- `re.sub(r'\s+', ' ', text)` by structural recursion on a fuel bound. -/
def collapseWsGo : Nat → List Char → List Char
  | 0, l => l
  | _ + 1, [] => []
  | fuel + 1, c :: rest =>
    if c.isWhitespace then
      ' ' :: collapseWsGo fuel (rest.dropWhile Char.isWhitespace)
    else c :: collapseWsGo fuel rest

/-- `re.sub(r'\s+', ' ', text)`: collapse every maximal whitespace run to
one space. -/
def collapseWs (l : List Char) : List Char := collapseWsGo l.length l

/-- The character class kept by `re.sub(r"^[^a-zA-Z0-9(\"\']+", "", text)`. -/
def descLeadOk (c : Char) : Bool :=
  c.isAlphanum || c = '(' || c = '"' || c = '\''

/-- The character class kept by
`re.sub(r"[^a-zA-Z0-9\s\.\,\!\?\-\–\'\"\(\)]+$", "", text)`. -/
def descTrailOk (c : Char) : Bool :=
  c.isAlphanum || c.isWhitespace || c = '.' || c = ',' || c = '!' ||
    c = '?' || c = '-' || c = '–' || c = '\'' || c = '"' || c = '(' || c = ')'

/-- `re.search(r"[a-zA-Z]{5,}", text)`: five consecutive ASCII letters. -/
def hasRun5 (l : List Char) : Bool :=
  l.tails.any (fun t => 5 ≤ (t.takeWhile Char.isAlpha).length)

/-- `clean_text` of utils/search.py on character lists: strip HTML tags to
spaces, remove the boilerplate patterns in order, normalize whitespace,
and for descriptions trim non-content edges and blank out short wordless
remains. -/
def cleanTextL (l : List Char) (isDesc : Bool) : List Char :=
  let t0 := subAll tryTag [' '] l
  let t1 := boilerMatchers.foldl (fun acc m => subAll m [] acc) t0
  let t2 := stripL (collapseWs t1)
  if isDesc then
    let t3 := t2.dropWhile (fun c => ¬ descLeadOk c)
    let t4 := rdropWhileP (fun c => ¬ descTrailOk c) t3
    if t4.length < 20 ∧ ¬ hasRun5 t4 then [] else stripL t4
  else stripL t2

/-- `clean_text(text, is_description)` on `String` (the code's early
return for non-`str` input is irrelevant here: every call site modelled
passes `str(...)`). -/
def cleanText (s : String) (isDesc : Bool) : String :=
  String.mk (cleanTextL s.data isDesc)

/-- Python `s.lower()` on `String`. -/
def lowerStr (s : String) : String := String.mk (pyLower s.data)

/-- Python `len(s)` (character count). -/
def pyLen (s : String) : Nat := s.data.length

/-- Python `s[:n]` (first `n` characters). -/
def pyTake (s : String) (n : Nat) : String := String.mk (s.data.take n)

/-- Python `s[n:]` (all but the first `n` characters). -/
def pyDropStr (s : String) (n : Nat) : String := String.mk (s.data.drop n)

/-- Drop the last `n` characters. -/
def pyDropRight (s : String) (n : Nat) : String :=
  String.mk (s.data.take (s.data.length - n))

/-- Python `s.startswith(p)`. -/
def pyStartsWith (s p : String) : Bool := p.data.isPrefixOf s.data

/-- Case-sensitive literal matcher (used for `str.replace`). -/
def lit (pat : String) : List Char → Option Nat :=
  fun l => if pat.data.isPrefixOf l then some pat.data.length else none

/-- Python `s.replace(old, new)`: replace every occurrence, scanning left
to right (`old` is never empty at the call sites modelled). -/
def pyReplace (s old new : String) : String :=
  String.mk (subAll (lit old) new.data s.data)

/-- Python `s.rstrip('.')`. -/
def rstripDots (s : String) : String :=
  String.mk (rdropWhileP (fun c => c = '.') s.data)

/-- Split off the text before and after the first occurrence of a
(case-sensitive) separator: `s.split(sep, 1)` when `sep in s`. -/
def splitFirstL (pat : List Char) : List Char → Option (List Char × List Char)
  | [] => none
  | c :: rest =>
    if pat.isPrefixOf (c :: rest) then some ([], (c :: rest).drop pat.length)
    else (splitFirstL pat rest).map (fun pr => (c :: pr.1, pr.2))

/-! ## utils/guardrail.py -/

/-- The `non_descriptive_phrases` of `is_description_meaningful`. -/
def nonDescriptivePhrases : List String :=
  ["no detailed description available", "no available appointments",
   "my planner", "my profile", "sign out", "exhibitor details",
   "more information", "javascript:", "function", "error"]

/-- Maximal runs of `\w` characters, by structural recursion on a fuel
bound. -/
def wordRunsGo : Nat → List Char → List (List Char)
  | 0, _ => []
  | _ + 1, [] => []
  | fuel + 1, c :: rest =>
    if isWordChar c then
      (c :: rest.takeWhile isWordChar) :: wordRunsGo fuel (rest.dropWhile isWordChar)
    else wordRunsGo fuel rest

/-- Maximal runs of `\w` characters of a text, in order. -/
def wordRuns (l : List Char) : List (List Char) := wordRunsGo l.length l

/-- `re.findall(r'\b[a-zA-Z]{3,}\b', s)`: because `\b` separates `\w`
from non-`\w`, the matches are exactly the maximal `\w`-runs that consist
solely of ASCII letters and have length at least 3. -/
def meaningfulWordCount (s : String) : Nat :=
  ((wordRuns s.data).filter
    (fun r => 3 ≤ r.length && r.all Char.isAlpha)).length

/-- `is_description_meaningful` of utils/guardrail.py. -/
def isDescriptionMeaningful (description : String) : Bool :=
  if description = "" ∨ pyLen description < 25 then false
  else if nonDescriptivePhrases.any
      (fun phrase => containsSub (lowerStr description) phrase) then false
  else 5 < meaningfulWordCount description

/-- The template fallback used when the guardrail LLM failed to
initialize (`llm` is `None`). -/
def fallbackNoLLM (companyName companyDescription eventName : String) : String :=
  let meaningfulDesc := isDescriptionMeaningful companyDescription
  let descSnippet :=
    if meaningfulDesc then rstripDots (pyStrip (pyTake companyDescription 100)) ++ "..."
    else "your work and presence"
  "It was a pleasure to learn about " ++ companyName ++ " during " ++ eventName ++
    ". We were impressed by " ++ descSnippet ++
    " and see potential for collaboration. Would you be open to a brief discussion?"

/-- The generic fallback used when the guardrail LLM call raised or its
answer, after cleanup, was empty or shorter than 50 characters. -/
def fallbackGeneric (companyName companyDescription eventName : String)
    (meaningfulDescriptionAvailable : Bool) : String :=
  let descSnippet :=
    if meaningfulDescriptionAvailable then
      rstripDots (pyStrip (pyTake companyDescription 70)) ++ "..."
    else "your company's work"
  "Following " ++ eventName ++ ", I wanted to reach out regarding " ++ companyName ++
    ". We were impressed by " ++ descSnippet ++
    " and see potential for collaboration. Would you be open to a brief discussion?"

/-- The `description_for_prompt` of `refine_outreach_message`. -/
def descriptionForPrompt (companyDescription : String) (meaningful : Bool) : String :=
  if meaningful then
    "Their specific focus seems to be on: '" ++ pyTake companyDescription 200 ++ "'."
  else
    "Their company description from the event page was not very detailed or appeared to be boilerplate."

/-- The guardrail prompt of `refine_outreach_message` (the f-string
body, with its interpolations). -/
def guardrailPrompt (companyName companyDescription eventName userNameForSignature : String)
    (meaningful : Bool) : String :=
  let dfp := descriptionForPrompt companyDescription meaningful
  "\nYou are an expert Sales Development Representative, crafting a concise, polite, and engaging outreach email body.\nThe goal is to initiate a conversation.\n\nEvent: "
  ++ eventName ++ "\nCompany to Contact: " ++ companyName ++
  "\nContext about the company (use this to personalize if specific, otherwise make a general positive remark about their presence at the event):\n\""
  ++ dfp ++
  "\"\n\nSender's Name (for context only, do NOT include in the message body): "
  ++ userNameForSignature ++
  "\n\nInstructions for the refined message body:\n1.  **Opening:** Start with a warm, professional opening that feels like a natural follow-up from the event. Examples:\n    * \"It was great to see "
  ++ companyName ++ "'s presence at " ++ eventName ++ ".\"\n    * \"Following "
  ++ companyName ++ "'s participation at " ++ eventName ++
  ", I was particularly interested in...\"\n    * \"Inspired by your company's showcase at "
  ++ eventName ++ "...\"\n    * \"Hope you had a successful " ++ eventName ++
  ".\"\n2.  **Personalization & Value:**\n    * If the company context indicates a specific focus (from \""
  ++ dfp ++
  "\"), briefly and naturally mention it to show genuine interest.\n    * If the company context is generic or indicates a poor description, make a more general positive statement about their industry, their presence at the event, or an assumption of their general field based on the event type. For example: \"Your company's contributions to the signage industry are noteworthy.\" or \"We were impressed by the innovations showcased by companies like yours at the event.\"\n    * Briefly suggest a potential for collaboration or mutual benefit without being overly salesy.\n3.  **Call to Action:** Include a soft and clear call to action. Examples:\n    * \"Would you be open to a brief introductory call next week to explore this further?\"\n    * \"I'd be happy to share a few ideas on how we might collaborate if you're available for a quick chat.\"\n4.  **Tone:** Professional, respectful, concise, and genuinely interested. Avoid hype or overly casual language.\n5.  **Length:** Keep the entire message body relatively short, ideally 3-5 sentences.\n6.  **Output Format:** Provide ONLY the email body. Do NOT include \"Subject:\", \"Dear [Name],\" or any signature block (e.g., \"Best regards...\"). The signature will be added separately.\n7.  **Crucial - Avoid Junk & Placeholders:** Absolutely NO placeholders like \"[Your Name/Company]\", \"Rationale not extracted\", or any HTML/JavaScript remnants like \"My Planner\", \"function parse_query_string\". The message must be clean and ready to send (once the signature is appended).\n\nRefined Email Body:\n    "

/-- The `common_llm_openers` stripped from the head of the LLM answer. -/
def commonLlmOpeners : List String :=
  ["Here's a refined email body:", "Certainly, here's the refined message:",
   "Okay, here's a version:"]

/-- The opener-stripping loop: each opener in turn, dropped (and the rest
stripped) when the current text starts with it. -/
def stripOpeners (t : String) : String :=
  commonLlmOpeners.foldl
    (fun acc opener =>
      if pyStartsWith acc opener then pyStrip (pyDropStr acc (pyLen opener)) else acc) t

/-- The suffixes matched by `(Best regards|Sincerely|Thanks),?$` under
`re.IGNORECASE` on an already-stripped text, longest first at a given end
(the optional comma is consumed greedily when present). -/
def closingVariants : List String :=
  ["best regards,", "sincerely,", "thanks,", "best regards", "sincerely", "thanks"]

/-- `re.search(r"(Best regards|Sincerely|Thanks),?$", t, re.IGNORECASE)`
on a stripped text `t`. -/
def endsWithClosing (t : String) : Bool :=
  closingVariants.any (fun w => decide (w.data <:+ pyLower t.data))

/-- `re.sub(r"(Best regards|Sincerely|Thanks),?$", "", t, re.IGNORECASE)`
followed by `.strip()`: one pass removing the single terminal closing
when present. -/
def removeTrailingClosing (t : String) : String :=
  match closingVariants.find? (fun w => decide (w.data <:+ pyLower t.data)) with
  | some w => pyStrip (pyDropRight t (pyLen w))
  | none => t

/-- The cleanup applied to the guardrail LLM's raw answer before the
length check: strip, drop `Refined Email Body:` echoes, drop
conversational openers, and strip one signature-like closing. -/
def refineCleanup (raw : String) : String :=
  let t1 := pyStrip raw
  let t2 := pyStrip (pyReplace t1 "Refined Email Body:" "")
  let t3 := stripOpeners t2
  if endsWithClosing t3 then removeTrailingClosing t3 else t3

/-- `refine_outreach_message` of utils/guardrail.py.  The module-level
guardrail LLM is `gllm`: `none` when its initialization failed, otherwise
a response function returning `.error` when `llm.invoke` raises.  The
`originalMessageContext` argument is received but, as in the source, not
used by the prompt. -/
def refineOutreachMessage (gllm : Option (String → Except String String))
    (originalMessageContext companyName companyDescription : String)
    (eventName : String := "ISA Sign Expo 2025")
    (userNameForSignature : String := "Our Team") : String :=
  match gllm with
  | none => fallbackNoLLM companyName companyDescription eventName
  | some llm =>
    let meaningful := isDescriptionMeaningful companyDescription
    match llm (guardrailPrompt companyName companyDescription eventName
        userNameForSignature meaningful) with
    | .error _ => fallbackGeneric companyName companyDescription eventName meaningful
    | .ok raw =>
      let refined := refineCleanup raw
      if pyLen refined < 50 then
        fallbackGeneric companyName companyDescription eventName meaningful
      else refined

/-! ## utils/judge.py -/

/-- The `check` instruction string of `judge_message`. -/
def judgeCheckPrompt : String :=
  "Evaluate this message for hallucinated facts, toxicity/profanity, or phishing style. Return 'OK' if clean, otherwise JSON list of issues."

/-- `judge_message` of utils/judge.py, with its LLM as a parameter.  It is
defined by the repository and registered as an agent tool, but no pipeline
code path invokes it. -/
def judgeMessage (llm : String → String) (message : String) : String :=
  llm (judgeCheckPrompt ++ "\n\nMessage:\n" ++ message)

/-! ## utils/outreach.py -/

/-- `_generate_and_refine_message_for_single_lead`: build the minimal
context, refine via the guardrail, and append the user's signature.
`description[:70]` raises a `TypeError` when the stored description is
`None`; every other use of lead fields here is f-string interpolation. -/
def genRefineSingle (gllm : Option (String → Except String String)) (leadDict : Dict)
    (userSignature : String) (eventName : String := "ISA Sign Expo 2025")
    (userNameForSignature : String := "Our Team") : Except String String :=
  let companyName := dictGet leadDict "name" (.vstr "your company")
  match dictGet leadDict "description" (.vstr "") with
  | .vnone => .error "TypeError: 'NoneType' object is not subscriptable"
  | .vstr description =>
    let refinedBody := refineOutreachMessage gllm
      ("Follow-up after seeing " ++ companyName.pyStr ++ " at " ++ eventName ++
        " regarding " ++ pyTake description 70 ++ "...")
      companyName.pyStr description eventName userNameForSignature
    .ok (refinedBody ++ userSignature)

/-- A pipeline event, for stating ordering claims: a CSV persisted by
`save_stage`, an outreach message drafted for a lead, `judge_message`
applied to a message, and the branch taken by `search_leads`. -/
inductive Ev where
  | save (stage : String) (rows : List Dict)
  | drafted (company : PyVal) (msg : String)
  | judged (msg : String)
  | crawl (url : String)
  | serp (query : String)
deriving DecidableEq, Repr

/-- The loop of `generate_outreach`: copy each dict item, assign its
`outreach_message`, skip non-dict items; also records a `drafted` event
per message.  Errors of a single lead propagate (the source has no
`try` around this loop). -/
def generateOutreachT (gllm : Option (String → Except String String)) :
    List Item → String → String → String → Except String (List Dict × List Ev)
  | [], _, _, _ => .ok ([], [])
  | .other _ :: rest, sig, user, ev => generateOutreachT gllm rest sig user ev
  | .dict d :: rest, sig, user, ev => do
    let msg ← genRefineSingle gllm d sig ev user
    let (tail, evs) ← generateOutreachT gllm rest sig user ev
    .ok (dictSet d "outreach_message" (.vstr msg) :: tail,
      .drafted (dictGet d "name" (.vstr "your company")) msg :: evs)

/-- `generate_outreach` of utils/outreach.py (result view of the traced
loop). -/
def generateOutreach (gllm : Option (String → Except String String))
    (leadsList : List Item) (userSignature userNameForSignature : String)
    (eventName : String := "ISA Sign Expo 2025") : Except String (List Dict) :=
  (generateOutreachT gllm leadsList userSignature userNameForSignature eventName).map Prod.fst

/-! ## utils/enrichment.py -/

/-- The module's `ICP_DESCRIPTION` (a triple-quoted string with its
surrounding newlines). -/
def ICP_DESCRIPTION : String :=
  "\nSpecializes in large-format signage, vehicle wraps, and architectural graphics;\nGlobal $8B+ revenue, thousands of employees;\nExhibits at ISA Sign Expo, active in industry associations;\nDecision-makers: VPs of Product Development, Directors of Innovation, R&D leaders.\n"

/-- The qualification prompt built by `enrich_leads` for one lead. -/
def enrichPrompt (companyName companyDescription : String) : String :=
  "Evaluate if the following company matches this Ideal Customer Profile (ICP):\nICP: "
  ++ ICP_DESCRIPTION ++
  "\n\nCompany Name: " ++ companyName ++
  "\nCompany Description: " ++ companyDescription ++
  "\n\nRespond in two parts separated by '###RATIONALE###'.\nPart 1: 'Yes' or 'No' indicating if the company matches the ICP.\nPart 2: A brief (1-2 sentence) rationale for your decision based on the ICP and company details."

/-- The decision/rationale extraction of `enrich_leads` from one LLM
response: `(qualified, qualification_rationale)`. -/
def qualifyResponse (resp : String) : String × String :=
  match splitFirstL "###RATIONALE###".data resp.data with
  | some (before, after) =>
    (if containsSub (String.mk (pyLower (stripL before))) "yes" then "Yes" else "No",
     pyStrip (String.mk after))
  | none =>
    (if containsSub (lowerStr resp) "yes" then "Yes" else "No",
     "Rationale not extracted by LLM.")

/-- The per-lead `try` block of `enrich_leads`.  `linkedinLookup` stands
for `get_company_linkedin_url_via_serpapi`, which cannot raise (it
catches its own exceptions and returns `""`); `llm` is the enrichment
LLM's response function, `.error` when `llm.invoke` raises — the only
statement of the block that can raise, so the profile and LinkedIn
updates made before it are retained in the error record. -/
def enrichLead (linkedinLookup : PyVal → String)
    (llm : String → Except String String) (leadData : Dict) : Dict :=
  let companyName := dictGet leadData "name" (.vstr "")
  let companyDescription := dictGet leadData "description" (.vstr "No description available")
  let d1 := dictUpd leadData [("size", .vnone), ("revenue", .vnone), ("industry", .vnone)]
  let d2 :=
    if companyName.truthy ∧ ¬ (dictGet d1 "linkedin_company_page" .vnone).truthy ∧
        ¬ (dictGet d1 "linkedin_company_page_serpapi" .vnone).truthy then
      dictSet d1 "linkedin_company_page_serpapi" (.vstr (linkedinLookup companyName))
    else d1
  match llm (enrichPrompt companyName.pyStr companyDescription.pyStr) with
  | .ok resp =>
    let q := qualifyResponse resp
    let actionable := if q.1 = "Yes" then "Yes" else "No"
    dictUpd d2 [("qualified", .vstr q.1), ("qualification_rationale", .vstr q.2),
                ("actionable", .vstr actionable)]
  | .error e =>
    dictUpd d2 [("qualified", .vstr "Error"),
                ("qualification_rationale", .vstr ("Enrichment error: " ++ e)),
                ("actionable", .vstr "No"), ("outreach_message", .vstr "")]

/-- The error record of the LLM-initialization-failure branch:
`dict(lead, qualified="Error", actionable="Error", ...)`. -/
def errorInitRecord (e : String) (d : Dict) : Dict :=
  dictUpd d [("qualified", .vstr "Error"), ("actionable", .vstr "Error"),
             ("qualification_rationale", .vstr ("LLM Init Failed: " ++ e)),
             ("outreach_message", .vstr "")]

/-- The initialization-failure list comprehension.  `dict(lead, ...)`
raises a `TypeError`/`ValueError` when `lead` is not a dict (unlike the
per-lead loop, this branch has no isinstance guard). -/
def initFailList (e : String) : List Item → Except String (List Dict)
  | [] => .ok []
  | .dict d :: rest => (initFailList e rest).map (errorInitRecord e d :: ·)
  | .other _ :: _ => .error "TypeError: cannot convert to dict"

/-- `enrich_leads` of utils/enrichment.py, with saves and drafted
messages recorded as events.  `llmInit` is the outcome of constructing
the enrichment LLM (`.error` when `OPENAI_API_KEY` is missing or the
constructor raises); `gllm` is the guardrail module's LLM. -/
def enrichLeadsT (linkedinLookup : PyVal → String)
    (llmInit : Except String (String → Except String String))
    (gllm : Option (String → Except String String))
    (leads : List Item) (userSignature userNameForSignature : String)
    (eventName : String := "ISA Sign Expo 2025") :
    Except String (List Dict × List Ev) :=
  if leads = [] then .ok ([], [])
  else match llmInit with
  | .error e => (initFailList e leads).map (fun l => (l, []))
  | .ok llm =>
    let enriched := leads.filterMap (fun it =>
      match it with
      | .dict d => some (enrichLead linkedinLookup llm d)
      | .other _ => none)
    (if enriched ≠ [] then
        generateOutreachT gllm (enriched.map .dict) userSignature
          userNameForSignature eventName
      else .ok ([], [])).map
      (fun p =>
        if p.1 = [] ∧ enriched ≠ [] then
          (enriched, p.2 ++ [.save "enriched" enriched])
        else
          (p.1, p.2 ++ [.save "enriched" p.1]))

/-! ## utils/search.py -/

/-- The ISA 2025 exhibitor-gallery URL of `EVENT_LINKS`. -/
def isaGalleryUrl : String :=
  "https://isasignexpo2025.mapyourshow.com/8_0/explore/exhibitor-gallery.cfm?featured=false&categories=1%7C47"

/-- `EVENT_LINKS`. -/
def EVENT_LINKS : List (String × String) := [("ISA2025", isaGalleryUrl)]

/-- `default_lead_keys`. -/
def defaultLeadKeys : List String :=
  ["name", "mapyourshow_detail_url", "company_website", "description", "location",
   "phone", "email", "linkedin_company_page", "raw_contacts_text", "booth_number",
   "size", "revenue", "industry"]

/-- The per-lead normalization of `search_leads`: the dict comprehension
over `default_lead_keys` (each value `clean_text(str(...))`), the
description re-clean and default, and the booth-number validation. -/
def normalizeLead (d : Dict) : Dict :=
  let base : Dict := defaultLeadKeys.map
    (fun k => (k, PyVal.vstr (cleanText (dictGet d k (.vstr "")).pyStr false)))
  let desc := cleanText (dictGet base "description" (.vstr "")).pyStr true
  let b1 := dictSet base "description" (.vstr desc)
  let b2 := if desc = "" then
      dictSet b1 "description" (.vstr "No detailed description available.")
    else b1
  let nameStr := (dictGet b2 "name" (.vstr "")).pyStr
  let boothStr := (dictGet b2 "booth_number" (.vstr "")).pyStr
  if 15 < pyLen boothStr ∨
      (nameStr ≠ "" ∧ containsSub (lowerStr boothStr) (lowerStr nameStr)) then
    dictSet b2 "booth_number" (.vstr "")
  else b2

/-- The final processing loop of `search_leads`: normalize every dict
item of `leads_data`, skip the rest. -/
def processLeads (leadsData : List Item) : List Dict :=
  leadsData.filterMap (fun it =>
    match it with
    | .dict d => some (normalizeLead d)
    | .other _ => none)

/-- `search_leads` of utils/search.py.  The external interactions enter
as parameters: `crawlResult` is what `crawl_event_exhibitors` returned
for the event URL, `serpOk` whether the SerpAPI client and key are
available, and `serpResult` the lead list the SerpAPI branch built from
the organic results (or its failure record).  Returns the processed
leads and the events of the call (branch taken, `db/search.csv` save). -/
def searchLeadsT (crawlResult : List Item) (serpOk : Bool) (serpResult : List Item)
    (keyword : String) : List Dict × List Ev :=
  let key := pyUpper keyword
  let branch : List Item × List Ev :=
    match EVENT_LINKS.find? (fun p => p.1 = key) with
    | some p => (crawlResult, [.crawl p.2])
    | none =>
      if serpOk then (serpResult, [.serp (keyword ++ " company")])
      else ([.dict [("name", .vstr keyword),
                    ("description", .vstr "SerpAPI key not configured or client not installed.")]],
            [])
  let processed := processLeads branch.1
  (processed,
   branch.2 ++ if processed ≠ [] then [Ev.save "search" processed] else [])

/-! ## run.py -/

/-- `main` of run.py, from the point where the user inputs are fixed:
search, then enrich (which generates outreach and persists
`db/enriched.csv`).  Returns the enriched leads and the run's full event
trace.  The terminal display and `finalize()` touch no lead data and no
claim concerns them. -/
def runMain (crawlResult : List Item) (serpOk : Bool) (serpResult : List Item)
    (linkedinLookup : PyVal → String)
    (llmInit : Except String (String → Except String String))
    (gllm : Option (String → Except String String))
    (eventName : String) (userName userCompany : String) :
    Except String (List Dict × List Ev) :=
  let userFullSignature := "\n\nBest regards,\n" ++ userName ++ "\n" ++ userCompany
  let foundLeads := (searchLeadsT crawlResult serpOk serpResult eventName).1
  let searchEvs := (searchLeadsT crawlResult serpOk serpResult eventName).2
  if foundLeads = [] then .ok ([], searchEvs)
  else
    (enrichLeadsT linkedinLookup llmInit gllm (foundLeads.map .dict)
        userFullSignature userName).map
      (fun p => (p.1, searchEvs ++ p.2))

/-! ## Lemmas about the dict operations -/

theorem dictGet_dictSet_self (d : Dict) (k : String) (v dflt : PyVal) :
    dictGet (dictSet d k v) k dflt = v := by
  induction d with
  | nil => simp [dictSet, dictGet]
  | cons p rest ih =>
    by_cases h : p.1 = k
    · simp [dictSet, h, dictGet]
    · simpa [dictSet, h, dictGet] using ih

theorem dictGet_dictSet_ne (d : Dict) (k k' : String) (v dflt : PyVal)
    (h : k' ≠ k) : dictGet (dictSet d k' v) k dflt = dictGet d k dflt := by
  induction d with
  | nil => simp [dictSet, dictGet, h]
  | cons p rest ih =>
    by_cases hp : p.1 = k'
    · simp [dictSet, hp, dictGet, h, hp ▸ h]
    · by_cases hk : p.1 = k
      · simp [dictSet, hp, dictGet, hk, Ne.symm h]
      · simpa [dictSet, hp, dictGet, hk] using ih

/-! ## C3: `search_leads` dispatches on the keyword -/

/-- C3: for a keyword whose upper-cased form is a key of `EVENT_LINKS`,
`search_leads` crawls the corresponding event URL and performs no SerpAPI
search; for every other keyword (with the SerpAPI client configured) it
performs the general web search and crawls nothing — exactly one branch
per call. -/
theorem eventLinks_find_eq {key : String} (h : key = "ISA2025") :
    EVENT_LINKS.find? (fun p => p.1 = key) = some ("ISA2025", isaGalleryUrl) := by
  subst h; rfl

theorem eventLinks_find_ne {key : String} (h : key ≠ "ISA2025") :
    EVENT_LINKS.find? (fun p => p.1 = key) = none := by
  simp only [EVENT_LINKS, List.find?]
  rw [decide_eq_false (by simpa [eq_comm] using h)]

theorem c3_search_dispatch (crawlResult : List Item) (serpOk : Bool)
    (serpResult : List Item) (keyword : String) :
    (∀ url, (pyUpper keyword, url) ∈ EVENT_LINKS →
      Ev.crawl url ∈ (searchLeadsT crawlResult serpOk serpResult keyword).2 ∧
      ∀ q, Ev.serp q ∉ (searchLeadsT crawlResult serpOk serpResult keyword).2) ∧
    ((∀ url, (pyUpper keyword, url) ∉ EVENT_LINKS) → serpOk = true →
      Ev.serp (keyword ++ " company") ∈ (searchLeadsT crawlResult serpOk serpResult keyword).2 ∧
      ∀ url, Ev.crawl url ∉ (searchLeadsT crawlResult serpOk serpResult keyword).2) := by
  constructor
  · intro url hmem
    have hkey : pyUpper keyword = "ISA2025" ∧ url = isaGalleryUrl := by
      simpa [EVENT_LINKS, Prod.ext_iff] using hmem
    simp only [searchLeadsT, eventLinks_find_eq hkey.1, hkey.2]
    constructor
    · simp
    · intro q
      simp only [List.mem_append, List.mem_singleton]
      rintro (h | h)
      · exact Ev.noConfusion h
      · revert h
        split
        · intro h
          exact Ev.noConfusion (List.mem_singleton.mp h)
        · simp
  · intro hmem hserp
    have hkey : pyUpper keyword ≠ "ISA2025" := fun h =>
      hmem isaGalleryUrl (by simp [EVENT_LINKS, h])
    simp only [searchLeadsT, eventLinks_find_ne hkey, hserp, if_pos]
    constructor
    · simp
    · intro url
      simp only [List.mem_append, List.mem_singleton]
      rintro (h | h)
      · exact Ev.noConfusion h
      · revert h
        split
        · intro h
          exact Ev.noConfusion (List.mem_singleton.mp h)
        · simp

/-- Witness for C3: a run on the event keyword crawls the event URL; a
run on a generic keyword performs the SerpAPI search. -/
theorem c3_search_dispatch_witness :
    Ev.crawl "https://isasignexpo2025.mapyourshow.com/8_0/explore/exhibitor-gallery.cfm?featured=false&categories=1%7C47"
        ∈ (searchLeadsT [] true [] "isa2025").2 ∧
    Ev.serp "digital signage company" ∈ (searchLeadsT [] true [] "digital signage").2 := by
  constructor
  · exact ((c3_search_dispatch [] true [] "isa2025").1 _ (by decide)).1
  · refine ((c3_search_dispatch [] true [] "digital signage").2 ?_ rfl).1
    intro url h
    have hk : pyUpper "digital signage" = "ISA2025" :=
      (Prod.ext_iff.mp (List.mem_singleton.mp h)).1
    exact absurd hk (by decide)

/-! ## C4: the qualification decision

The source compares `"yes" in parts[0].strip().lower()`; the claim speaks
of the pre-marker part without the strip.  The bridge is that stripping
whitespace from the ends of a string cannot create or destroy an
occurrence of `"yes"`, proven below for a general pattern none of whose
characters can arise by lower-casing a whitespace character. -/

/-- The part of an LLM response before the `###RATIONALE###` marker, or
the whole response when the marker is absent (the claim's notion). -/
def preMarker (resp : String) : List Char :=
  match splitFirstL "###RATIONALE###".data resp.data with
  | some pr => pr.1
  | none => resp.data

theorem infix_map_dropWhile {p : List Char} {q : Char → Bool} {f : Char → Char}
    (hq : ∀ c, q c = true → f c ∉ p) :
    ∀ l : List Char, (p <:+: (l.dropWhile q).map f ↔ p <:+: l.map f) := by
  intro l
  induction l with
  | nil => simp
  | cons c t ih =>
    by_cases hqc : q c
    · rw [List.dropWhile_cons, if_pos hqc]
      constructor
      · intro h
        exact h.trans (((List.dropWhile_suffix q).map f).trans
          ((List.suffix_cons c t).map f)).isInfix
      · intro h
        rcases h with ⟨s, u, hsu⟩
        match s, hsu with
        | [], hsu =>
          cases p with
          | nil => exact List.nil_infix
          | cons a p' =>
            exfalso
            have : a = f c := by
              have := congrArg (fun l => l.head?) hsu
              simpa using this
            exact hq c hqc (this ▸ List.mem_cons_self a p')
        | b :: s', hsu =>
          have : s' ++ p ++ u = t.map f := by
            have := congrArg List.tail hsu
            simpa using this
          exact ih.mpr ⟨s', u, this⟩
    · rw [List.dropWhile_cons, if_neg hqc]

theorem infix_map_rdropWhileP {p : List Char} {q : Char → Bool} {f : Char → Char}
    (hq : ∀ c, q c = true → f c ∉ p) (l : List Char) :
    p <:+: (rdropWhileP q l).map f ↔ p <:+: l.map f := by
  have hq' : ∀ c, q c = true → f c ∉ p.reverse := by
    intro c hc
    simpa using hq c hc
  unfold rdropWhileP
  rw [List.map_reverse]
  conv_lhs => rw [show p = p.reverse.reverse by simp]
  rw [List.reverse_infix, infix_map_dropWhile hq', List.map_reverse,
    show p.reverse = p.reverse.reverse.reverse by simp, List.reverse_infix]
  simp

/-- Characters produced by lower-casing whitespace are never letters of
`"yes"`. -/
theorem ws_toLower_not_yes : ∀ c : Char, c.isWhitespace = true →
    c.toLower ∉ "yes".data := by
  intro c hc hmem
  have h : c = ' ' ∨ c = '\t' ∨ c = '\r' ∨ c = '\n' := by
    simp [Char.isWhitespace] at hc; tauto
  rcases h with h | h | h | h <;> subst h <;> exact absurd hmem (by decide)

theorem yes_infix_stripL (b : List Char) :
    ("yes".data <:+: pyLower (stripL b)) ↔ ("yes".data <:+: pyLower b) := by
  unfold stripL pyLower
  rw [infix_map_rdropWhileP ws_toLower_not_yes,
    infix_map_dropWhile ws_toLower_not_yes]

/-- The extracted decision is `"Yes"` exactly when the pre-marker part
(respectively the whole response) contains `"yes"` case-insensitively. -/
theorem qualifyResponse_yes_iff (resp : String) :
    ((qualifyResponse resp).1 = "Yes" ↔ "yes".data <:+: pyLower (preMarker resp)) := by
  unfold qualifyResponse preMarker
  cases h : splitFirstL "###RATIONALE###".data resp.data with
  | some pr =>
    simp only [h, containsSub]
    rw [← yes_infix_stripL pr.1]
    by_cases hc : "yes".data <:+: pyLower (stripL pr.1) <;> simp [hc]
  | none =>
    simp only [h, containsSub, lowerStr]
    by_cases hc : "yes".data <:+: pyLower resp.data <;> simp [hc, pyLower]

/-- The decision is always one of `"Yes"`/`"No"`. -/
theorem qualifyResponse_fst_cases (resp : String) :
    (qualifyResponse resp).1 = "Yes" ∨ (qualifyResponse resp).1 = "No" := by
  unfold qualifyResponse
  cases splitFirstL "###RATIONALE###".data resp.data with
  | some pr => split <;> simp
  | none => split <;> simp

/-- On a non-raising LLM call the per-lead enrichment ends by assigning
`qualified`, `qualification_rationale` and `actionable` from the
response. -/
theorem enrichLead_ok_shape (lk : PyVal → String) (resp : String) (lead : Dict) :
    ∃ d2 : Dict,
      enrichLead lk (fun _ => .ok resp) lead =
        dictSet (dictSet (dictSet d2 "qualified" (.vstr (qualifyResponse resp).1))
          "qualification_rationale" (.vstr (qualifyResponse resp).2)) "actionable"
          (.vstr (if (qualifyResponse resp).1 = "Yes" then "Yes" else "No")) :=
  ⟨_, rfl⟩

/-- C4: with the LLM answering `resp`, `enrich_leads` sets `qualified`
to `"Yes"` exactly when the part of `resp` before `###RATIONALE###` (or
all of `resp` when the marker is absent) contains `"yes"`
case-insensitively, sets it to `"No"` otherwise, and sets `actionable`
to `"Yes"` iff `qualified` is `"Yes"`. -/
theorem c4_qualification (lk : PyVal → String) (resp : String) (lead : Dict) :
    (dictGet (enrichLead lk (fun _ => .ok resp) lead) "qualified" .vnone
        = .vstr "Yes" ↔ "yes".data <:+: pyLower (preMarker resp)) ∧
    (¬ ("yes".data <:+: pyLower (preMarker resp)) →
      dictGet (enrichLead lk (fun _ => .ok resp) lead) "qualified" .vnone
        = .vstr "No") ∧
    (dictGet (enrichLead lk (fun _ => .ok resp) lead) "actionable" .vnone
        = .vstr "Yes" ↔
      dictGet (enrichLead lk (fun _ => .ok resp) lead) "qualified" .vnone
        = .vstr "Yes") := by
  have hq := qualifyResponse_yes_iff resp
  obtain ⟨d2, hshape⟩ := enrichLead_ok_shape lk resp lead
  have hget_q : dictGet (enrichLead lk (fun _ => .ok resp) lead) "qualified" .vnone
      = .vstr (qualifyResponse resp).1 := by
    rw [hshape, dictGet_dictSet_ne _ _ _ _ _ (by decide),
      dictGet_dictSet_ne _ _ _ _ _ (by decide), dictGet_dictSet_self]
  have hget_a : dictGet (enrichLead lk (fun _ => .ok resp) lead) "actionable" .vnone
      = .vstr (if (qualifyResponse resp).1 = "Yes" then "Yes" else "No") := by
    rw [hshape, dictGet_dictSet_self]
  refine ⟨?_, ?_, ?_⟩
  · rw [hget_q]
    constructor
    · intro h
      exact hq.mp (by injection h)
    · intro h
      rw [hq.mpr h]
  · intro h
    rw [hget_q]
    rcases qualifyResponse_fst_cases resp with hc | hc
    · exact absurd (hq.mp hc) h
    · rw [hc]
  · rw [hget_q, hget_a]
    rcases qualifyResponse_fst_cases resp with hc | hc <;> rw [hc] <;> simp

/-! ## C5: `generate_outreach` only adds the message -/

/-- The dict payload of an item, when it is one. -/
def itemDict? : Item → Option Dict
  | .dict d => some d
  | .other _ => none

/-- The message `generate_outreach` stores for a dict lead (total
accessor of `genRefineSingle`, used to state its success cases; the
error arm is unreachable whenever the lead's description is not
`None`). -/
def genMsg (gllm : Option (String → Except String String)) (d : Dict)
    (sig ev user : String) : String :=
  match genRefineSingle gllm d sig ev user with
  | .ok m => m
  | .error e => e

theorem genRefineSingle_ok (gllm : Option (String → Except String String))
    (d : Dict) (sig ev user : String)
    (h : dictGet d "description" (.vstr "") ≠ .vnone) :
    genRefineSingle gllm d sig ev user = .ok (genMsg gllm d sig ev user) := by
  unfold genRefineSingle genMsg
  cases hd : dictGet d "description" (.vstr "") with
  | vnone => exact absurd hd h
  | vstr s => simp [genRefineSingle, hd]

theorem generateOutreachT_ok_of (gllm : Option (String → Except String String))
    (sig user ev : String) :
    ∀ items : List Item,
      (∀ d, Item.dict d ∈ items → dictGet d "description" (.vstr "") ≠ .vnone) →
      generateOutreachT gllm items sig user ev =
        .ok ((items.filterMap itemDict?).map
              (fun d => dictSet d "outreach_message" (.vstr (genMsg gllm d sig ev user))),
             (items.filterMap itemDict?).map
              (fun d => Ev.drafted (dictGet d "name" (.vstr "your company"))
                (genMsg gllm d sig ev user))) := by
  intro items
  induction items with
  | nil => intro _; rfl
  | cons it rest ih =>
    intro h
    cases it with
    | other t =>
      have := ih (fun d hd => h d (List.mem_cons_of_mem _ hd))
      simpa [generateOutreachT, List.filterMap_cons, itemDict?] using this
    | dict d =>
      have hd := h d (List.mem_cons_self _ _)
      have hrest := ih (fun d' hd' => h d' (List.mem_cons_of_mem _ hd'))
      simp [generateOutreachT, genRefineSingle_ok gllm d sig ev user hd, hrest,
        List.filterMap_cons, itemDict?, Bind.bind, Except.bind]

/-- C5: on any input whose dict items carry (as always in this pipeline)
a string description, `generate_outreach` succeeds and returns exactly
the dict items of the input, in order, each equal to the input record
with `outreach_message` assigned — and assignment of that key changes no
other field of a record. -/
theorem c5_outreach_frame (gllm : Option (String → Except String String))
    (items : List Item) (sig user ev : String)
    (h : ∀ d, Item.dict d ∈ items → dictGet d "description" (.vstr "") ≠ .vnone) :
    generateOutreach gllm items sig user ev =
      .ok ((items.filterMap itemDict?).map
            (fun d => dictSet d "outreach_message" (.vstr (genMsg gllm d sig ev user)))) ∧
    (∀ d : Dict, ∀ v : PyVal, ∀ k, k ≠ "outreach_message" → ∀ dflt,
      dictGet (dictSet d "outreach_message" v) k dflt = dictGet d k dflt) ∧
    (∀ d : Dict, ∀ v : PyVal,
      dictGet (dictSet d "outreach_message" v) "outreach_message" .vnone = v) := by
  refine ⟨?_, ?_, ?_⟩
  · unfold generateOutreach
    rw [generateOutreachT_ok_of gllm sig user ev items h]
    rfl
  · intro d v k hk dflt
    exact dictGet_dictSet_ne d k "outreach_message" v dflt (fun he => hk he.symm)
  · intro d v
    exact dictGet_dictSet_self d "outreach_message" v .vnone

/-- Witness for C5 at a concrete mixed list: the non-dict item is
dropped and the one dict item gains exactly its `outreach_message`. -/
theorem c5_outreach_frame_witness :
    generateOutreach none
      [.dict [("name", .vstr "Alpha"), ("description", .vstr "large signs")],
       .other "not a lead"]
      "\n\nBest regards,\nJane\nJCo" "Jane" "Test Expo" =
      .ok [dictSet [("name", .vstr "Alpha"), ("description", .vstr "large signs")]
            "outreach_message"
            (.vstr (genMsg none [("name", .vstr "Alpha"), ("description", .vstr "large signs")]
              "\n\nBest regards,\nJane\nJCo" "Test Expo" "Jane"))] := by
  have hmain := (c5_outreach_frame none
    [.dict [("name", .vstr "Alpha"), ("description", .vstr "large signs")],
     .other "not a lead"]
    "\n\nBest regards,\nJane\nJCo" "Jane" "Test Expo"
    (by
      intro d hd
      simp only [List.mem_cons, List.not_mem_nil, or_false] at hd
      rcases hd with h1 | h1
      · cases h1; decide
      · exact absurd h1 (by simp))).1
  exact hmain

/-! ## C6: messages end with the signature; the closing strip is one pass

The first half of the claim holds: the stored message is always the
refined body with `user_signature` appended.  The second half does not:
the guardrail removes a signature-like closing in a single
`re.sub(...,$)` pass, so an LLM answer ending in a repeated closing
(e.g. `... Thanks Thanks`) leaves a body that still ends in one. -/

set_option maxRecDepth 16000

/-- Counterexample to C6 as stated: a guardrail LLM answer ending in a
doubled closing.  One pass removes only the final `Thanks`; the refined
body still ends with a closing, and that body (with the signature
appended) is exactly what `generate_outreach` stores. -/
theorem c6_counterexample :
    endsWithClosing
      (refineOutreachMessage
        (some (fun _ => Except.ok
          "xxxxxxxxxxxxxxxxxxxxxxxxxxxxxxxxxxxxxxxxxxxxxxxxxxxxxxxxxxxx Thanks Thanks"))
        "ctx" "Alpha Signs" "short desc" "Test Expo" "Jane") = true ∧
    genRefineSingle
        (some (fun _ => Except.ok
          "xxxxxxxxxxxxxxxxxxxxxxxxxxxxxxxxxxxxxxxxxxxxxxxxxxxxxxxxxxxx Thanks Thanks"))
        [("name", .vstr "Alpha Signs"), ("description", .vstr "short desc")]
        "\n\nBest regards,\nJane\nJCo" "Test Expo" "Jane" =
      .ok ("xxxxxxxxxxxxxxxxxxxxxxxxxxxxxxxxxxxxxxxxxxxxxxxxxxxxxxxxxxxx Thanks"
        ++ "\n\nBest regards,\nJane\nJCo") := by
  constructor
  · decide
  · rfl

/-- C6 (amended): every stored outreach message is the guardrail-refined
body with `user_signature` appended, hence ends with the signature; and
when the cleaned LLM text ends with a `Best regards`/`Sincerely`/`Thanks`
closing (optional comma, case-insensitive) the guardrail strips that one
terminal closing — a single pass, so a repeated closing can survive. -/
theorem c6_signature_suffix (gllm : Option (String → Except String String))
    (lead : Dict) (sig ev user : String)
    (h : dictGet lead "description" (.vstr "") ≠ .vnone) :
    (∃ s body, dictGet lead "description" (.vstr "") = .vstr s ∧
      genRefineSingle gllm lead sig ev user = .ok (body ++ sig) ∧
      body = refineOutreachMessage gllm
        ("Follow-up after seeing " ++ (dictGet lead "name" (.vstr "your company")).pyStr ++
          " at " ++ ev ++ " regarding " ++ pyTake s 70 ++ "...")
        (dictGet lead "name" (.vstr "your company")).pyStr s ev user ∧
      sig.data <:+ (body ++ sig).data) ∧
    (∀ t, endsWithClosing t = true →
      ∃ w, w ∈ closingVariants ∧ w.data <:+ pyLower t.data ∧
        removeTrailingClosing t = pyStrip (pyDropRight t (pyLen w))) := by
  constructor
  · cases hd : dictGet lead "description" (.vstr "") with
    | vnone => exact absurd hd h
    | vstr s =>
      refine ⟨s, _, rfl, ?_, rfl, ?_⟩
      · unfold genRefineSingle
        rw [hd]
      · rw [String.data_append]
        exact List.suffix_append _ _
  · intro t ht
    unfold removeTrailingClosing
    cases hf : closingVariants.find? (fun w => decide (w.data <:+ pyLower t.data)) with
    | none =>
      exfalso
      rcases List.any_eq_true.mp ht with ⟨w, hw, hpw⟩
      exact absurd (List.find?_eq_none.mp hf w hw) (by simp [hpw])
    | some w =>
      have hp := List.find?_some hf
      have hw : w.data <:+ pyLower t.data := by simpa using hp
      exact ⟨w, List.mem_of_find?_eq_some hf, hw, rfl⟩

/-- Witness for the amended C6 on a concrete lead and guardrail answer. -/
theorem c6_signature_suffix_witness :
    "SIG".data <:+ (genMsg (some (fun _ => Except.ok "body")) [("name", .vstr "A")]
      "SIG" "Expo" "U").data := by
  have h := ((c6_signature_suffix (some (fun _ => Except.ok "body"))
    [("name", .vstr "A")] "SIG" "Expo" "U" (by decide)).1)
  obtain ⟨s, body, _, hok, _, hsuf⟩ := h
  have : genMsg (some (fun _ => Except.ok "body")) [("name", .vstr "A")]
      "SIG" "Expo" "U" = body ++ "SIG" := by
    simp [genMsg, hok]
  rw [this]
  exact hsuf

/-! ## C8: the schema invariant of `search_leads` output -/

theorem dictGet_mapKeys (keys : List String) (f : String → PyVal) (k : String)
    (dflt : PyVal) (h : k ∈ keys) :
    dictGet (keys.map (fun k' => (k', f k'))) k dflt = f k := by
  induction keys with
  | nil => exact absurd h (List.not_mem_nil k)
  | cons k0 rest ih =>
    by_cases hk : k0 = k
    · subst hk; simp [dictGet]
    · rcases List.mem_cons.mp h with h1 | h1
      · exact absurd h1.symm hk
      · simpa [dictGet, hk] using ih h1

theorem dictKeys_dictSet_of_mem (d : Dict) (k : String) (v : PyVal)
    (h : k ∈ dictKeys d) : dictKeys (dictSet d k v) = dictKeys d := by
  induction d with
  | nil => exact absurd h (List.not_mem_nil k)
  | cons p rest ih =>
    by_cases hp : p.1 = k
    · simp [dictSet, hp, dictKeys]
    · rcases List.mem_cons.mp h with h1 | h1
      · exact absurd h1.symm hp
      · simpa [dictSet, hp, dictKeys] using ih h1

theorem allVstr_dictSet (d : Dict) (k : String) (s : String)
    (h : ∀ p ∈ d, ∃ t, p.2 = PyVal.vstr t) :
    ∀ p ∈ dictSet d k (.vstr s), ∃ t, p.2 = PyVal.vstr t := by
  induction d with
  | nil =>
    intro p hp
    rcases List.mem_singleton.mp hp with rfl
    exact ⟨s, rfl⟩
  | cons q rest ih =>
    intro p hp
    by_cases hq : q.1 = k
    · simp only [dictSet, hq, if_pos] at hp
      rcases List.mem_cons.mp hp with rfl | h1
      · exact ⟨s, rfl⟩
      · exact h p (List.mem_cons_of_mem _ h1)
    · simp only [dictSet, hq, if_neg, not_false_iff] at hp
      rcases List.mem_cons.mp hp with rfl | h1
      · exact h p (List.mem_cons_self _ _)
      · exact ih (fun r hr => h r (List.mem_cons_of_mem _ hr)) p h1

/-- The four schema facts for one normalized lead. -/
theorem normalizeLead_spec (d : Dict) :
    dictKeys (normalizeLead d) = defaultLeadKeys ∧
    (∀ p ∈ normalizeLead d, ∃ s, p.2 = PyVal.vstr s) ∧
    (∃ s, dictGet (normalizeLead d) "description" (.vstr "") = .vstr s ∧ s ≠ "" ∧
      (s = "No detailed description available." ∨
        s = cleanText (cleanText (dictGet d "description" (.vstr "")).pyStr false) true)) ∧
    (∃ b, dictGet (normalizeLead d) "booth_number" (.vstr "") = .vstr b ∧
      (b = "" ∨ (pyLen b ≤ 15 ∧
        ¬ ((dictGet (normalizeLead d) "name" (.vstr "")).pyStr ≠ "" ∧
          containsSub (lowerStr b)
            (lowerStr ((dictGet (normalizeLead d) "name" (.vstr "")).pyStr)) = true)))) := by
  unfold normalizeLead
  set F : String → PyVal :=
    fun k => PyVal.vstr (cleanText (dictGet d k (.vstr "")).pyStr false) with hF
  set base : Dict := defaultLeadKeys.map (fun k => (k, F k)) with hbase
  have hkeys_base : dictKeys base = defaultLeadKeys := by
    rw [hbase]
    show List.map Prod.fst (List.map (fun k => (k, F k)) defaultLeadKeys) = defaultLeadKeys
    rw [List.map_map]
    exact List.map_id defaultLeadKeys
  have hbase_get : ∀ k, k ∈ defaultLeadKeys → ∀ dflt, dictGet base k dflt = F k := by
    intro k hk dflt
    exact dictGet_mapKeys defaultLeadKeys F k dflt hk
  have hdesc_mem : "description" ∈ defaultLeadKeys := by decide
  have hbooth_mem : "booth_number" ∈ defaultLeadKeys := by decide
  have hname_mem : "name" ∈ defaultLeadKeys := by decide
  set desc := cleanText (dictGet base "description" (.vstr "")).pyStr true with hdesc
  have hdesc_eq : desc =
      cleanText (cleanText (dictGet d "description" (.vstr "")).pyStr false) true := by
    rw [hdesc, hbase_get "description" hdesc_mem]
    simp [hF, PyVal.pyStr]
  set b1 := dictSet base "description" (.vstr desc) with hb1
  set b2 := (if desc = "" then
      dictSet b1 "description" (.vstr "No detailed description available.")
    else b1) with hb2
  have hkeys_b1 : dictKeys b1 = defaultLeadKeys := by
    rw [hb1, dictKeys_dictSet_of_mem _ _ _ (hkeys_base ▸ hdesc_mem), hkeys_base]
  have hkeys_b2 : dictKeys b2 = defaultLeadKeys := by
    rw [hb2]
    split
    · rw [dictKeys_dictSet_of_mem _ _ _ (hkeys_b1 ▸ hdesc_mem), hkeys_b1]
    · exact hkeys_b1
  have hvstr_base : ∀ p ∈ base, ∃ s, p.2 = PyVal.vstr s := by
    intro p hp
    rcases List.mem_map.mp hp with ⟨k, hk, hpk⟩
    refine ⟨cleanText (dictGet d k (.vstr "")).pyStr false, ?_⟩
    rw [← hpk]
  have hvstr_b1 : ∀ p ∈ b1, ∃ s, p.2 = PyVal.vstr s :=
    allVstr_dictSet base "description" desc hvstr_base
  have hvstr_b2 : ∀ p ∈ b2, ∃ s, p.2 = PyVal.vstr s := by
    rw [hb2]; split
    · exact allVstr_dictSet b1 "description" _ hvstr_b1
    · exact hvstr_b1
  have hb2_desc : ∃ s, dictGet b2 "description" (.vstr "") = .vstr s ∧ s ≠ "" ∧
      (s = "No detailed description available." ∨
        s = cleanText (cleanText (dictGet d "description" (.vstr "")).pyStr false) true) := by
    rw [hb2]
    by_cases hempty : desc = ""
    · rw [if_pos hempty, dictGet_dictSet_self]
      exact ⟨_, rfl, by decide, Or.inl rfl⟩
    · rw [if_neg hempty, hb1, dictGet_dictSet_self]
      exact ⟨desc, rfl, hempty, Or.inr hdesc_eq⟩
  have hb2_booth : dictGet b2 "booth_number" (.vstr "") = F "booth_number" := by
    rw [hb2]
    have h1 : dictGet b1 "booth_number" (.vstr "") = F "booth_number" := by
      rw [hb1, dictGet_dictSet_ne _ _ _ _ _ (by decide)]
      exact hbase_get "booth_number" hbooth_mem _
    split
    · rw [dictGet_dictSet_ne _ _ _ _ _ (by decide)]
      exact h1
    · exact h1
  by_cases hguard : 15 < pyLen (dictGet b2 "booth_number" (.vstr "")).pyStr ∨
      ((dictGet b2 "name" (.vstr "")).pyStr ≠ "" ∧
        containsSub (lowerStr (dictGet b2 "booth_number" (.vstr "")).pyStr)
          (lowerStr (dictGet b2 "name" (.vstr "")).pyStr) = true)
  · rw [if_pos hguard]
    refine ⟨?_, ?_, ?_, ?_⟩
    · rw [dictKeys_dictSet_of_mem _ _ _ (hkeys_b2 ▸ hbooth_mem)]
      exact hkeys_b2
    · exact allVstr_dictSet b2 "booth_number" "" hvstr_b2
    · obtain ⟨s, hs, hne, hd2⟩ := hb2_desc
      exact ⟨s, by rw [dictGet_dictSet_ne _ _ _ _ _ (by decide)]; exact hs, hne, hd2⟩
    · exact ⟨"", dictGet_dictSet_self _ _ _ _, Or.inl rfl⟩
  · rw [if_neg hguard]
    push_neg at hguard
    refine ⟨hkeys_b2, hvstr_b2, hb2_desc, ?_⟩
    refine ⟨(dictGet b2 "booth_number" (.vstr "")).pyStr, ?_, Or.inr ⟨hguard.1, ?_⟩⟩
    · rw [hb2_booth]; rfl
    · intro hc
      rcases hc with ⟨hn, hcs⟩
      exact absurd hcs (by simpa [hn] using hguard.2)

/-- C8: every lead returned by `search_leads` has exactly the 13 default
keys, all-string values, a non-empty description (defaulting to
`"No detailed description available."`), and a booth number that is
empty or at most 15 characters and free of the (non-empty) company name
as a case-insensitive substring. -/
theorem c8_search_lead_schema (crawlResult : List Item) (serpOk : Bool)
    (serpResult : List Item) (keyword : String) (lead : Dict)
    (h : lead ∈ (searchLeadsT crawlResult serpOk serpResult keyword).1) :
    dictKeys lead = defaultLeadKeys ∧
    (∀ p ∈ lead, ∃ s, p.2 = PyVal.vstr s) ∧
    (∃ s, dictGet lead "description" (.vstr "") = .vstr s ∧ s ≠ "") ∧
    (∃ b, dictGet lead "booth_number" (.vstr "") = .vstr b ∧
      (b = "" ∨ (pyLen b ≤ 15 ∧
        ¬ ((dictGet lead "name" (.vstr "")).pyStr ≠ "" ∧
          containsSub (lowerStr b)
            (lowerStr ((dictGet lead "name" (.vstr "")).pyStr)) = true)))) := by
  rcases List.mem_filterMap.mp h with ⟨it, _, hsome⟩
  cases it with
  | other t => exact absurd hsome (by simp)
  | dict d =>
    have hlead : normalizeLead d = lead := by
      simpa using hsome
    subst hlead
    obtain ⟨h1, h2, h3, h4⟩ := normalizeLead_spec d
    exact ⟨h1, h2, by rcases h3 with ⟨s, hs, hne, _⟩; exact ⟨s, hs, hne⟩, h4⟩

/-- Witness for C8: the lead built in the unconfigured-SerpAPI branch
satisfies the schema. -/
theorem c8_search_lead_schema_witness :
    dictKeys ((searchLeadsT [] false [] "signage").1.getD 0 []) = defaultLeadKeys ∧
    (∃ s, dictGet ((searchLeadsT [] false [] "signage").1.getD 0 [])
        "description" (.vstr "") = .vstr s ∧ s ≠ "") := by
  have h := c8_search_lead_schema [] false [] "signage"
    ((searchLeadsT [] false [] "signage").1.getD 0 []) (by decide)
  exact ⟨h.1, h.2.2.1⟩

/-! ## C9: error containment in `enrich_leads` -/

theorem dictGet_dictUpd_not_mem (kvs : List (String × PyVal)) :
    ∀ (d : Dict) (k : String) (dflt : PyVal), k ∉ kvs.map Prod.fst →
      dictGet (dictUpd d kvs) k dflt = dictGet d k dflt := by
  induction kvs with
  | nil => intro d k dflt _; rfl
  | cons kv rest ih =>
    intro d k dflt h
    simp only [List.map_cons, List.mem_cons] at h
    push_neg at h
    have heq : dictUpd d (kv :: rest) = dictUpd (dictSet d kv.1 kv.2) rest := rfl
    rw [heq, ih _ _ _ h.2, dictGet_dictSet_ne _ _ _ _ _ (fun he => h.1 he.symm)]

/-- Fields the per-lead enrichment never writes are preserved (in both
the success and the exception branch). -/
theorem enrichLead_preserves (lk : PyVal → String) (llm : String → Except String String)
    (d : Dict) (k : String)
    (hk : k ∉ ["size", "revenue", "industry", "linkedin_company_page_serpapi",
      "qualified", "qualification_rationale", "actionable", "outreach_message"])
    (dflt : PyVal) :
    dictGet (enrichLead lk llm d) k dflt = dictGet d k dflt := by
  simp only [List.mem_cons, List.not_mem_nil, or_false] at hk
  push_neg at hk
  obtain ⟨h1, h2, h3, h4, h5, h6, h7, h8⟩ := hk
  simp only [enrichLead]
  split
  · rw [dictGet_dictUpd_not_mem _ _ _ _ (by simp [h5, h6, h7])]
    split
    · rw [dictGet_dictSet_ne _ _ _ _ _ (fun he => h4 he.symm),
        dictGet_dictUpd_not_mem _ _ _ _ (by simp [h1, h2, h3])]
    · rw [dictGet_dictUpd_not_mem _ _ _ _ (by simp [h1, h2, h3])]
  · rw [dictGet_dictUpd_not_mem _ _ _ _ (by simp [h5, h6, h7, h8])]
    split
    · rw [dictGet_dictSet_ne _ _ _ _ _ (fun he => h4 he.symm),
        dictGet_dictUpd_not_mem _ _ _ _ (by simp [h1, h2, h3])]
    · rw [dictGet_dictUpd_not_mem _ _ _ _ (by simp [h1, h2, h3])]

/-- The fields of one initialization-failure error record. -/
theorem errorInitRecord_fields (e : String) (d : Dict) :
    dictGet (errorInitRecord e d) "qualified" .vnone = .vstr "Error" ∧
    dictGet (errorInitRecord e d) "actionable" .vnone = .vstr "Error" ∧
    dictGet (errorInitRecord e d) "outreach_message" .vnone = .vstr "" ∧
    (∀ k, k ∉ ["qualified", "actionable", "qualification_rationale",
        "outreach_message"] →
      ∀ dflt, dictGet (errorInitRecord e d) k dflt = dictGet d k dflt) := by
  have hshape : errorInitRecord e d =
      dictSet (dictSet (dictSet (dictSet d "qualified" (.vstr "Error"))
        "actionable" (.vstr "Error")) "qualification_rationale"
        (.vstr ("LLM Init Failed: " ++ e))) "outreach_message" (.vstr "") := rfl
  refine ⟨?_, ?_, ?_, ?_⟩
  · rw [hshape, dictGet_dictSet_ne _ _ _ _ _ (by decide),
      dictGet_dictSet_ne _ _ _ _ _ (by decide),
      dictGet_dictSet_ne _ _ _ _ _ (by decide), dictGet_dictSet_self]
  · rw [hshape, dictGet_dictSet_ne _ _ _ _ _ (by decide),
      dictGet_dictSet_ne _ _ _ _ _ (by decide), dictGet_dictSet_self]
  · rw [hshape, dictGet_dictSet_self]
  · intro k hk dflt
    refine dictGet_dictUpd_not_mem _ _ _ _ ?_
    intro hm
    apply hk
    simp only [List.map_cons, List.map_nil, List.mem_cons, List.not_mem_nil,
      or_false] at hm ⊢
    tauto

/-- The exception branch of the per-lead enrichment. -/
theorem enrichLead_error_shape (lk : PyVal → String)
    (llm : String → Except String String) (d : Dict) (msg : String)
    (hllm : llm (enrichPrompt (dictGet d "name" (.vstr "")).pyStr
      (dictGet d "description" (.vstr "No description available")).pyStr)
        = .error msg) :
    ∃ d2 : Dict,
      enrichLead lk llm d =
        dictSet (dictSet (dictSet (dictSet d2 "qualified" (.vstr "Error"))
          "qualification_rationale" (.vstr ("Enrichment error: " ++ msg)))
          "actionable" (.vstr "No")) "outreach_message" (.vstr "") := by
  simp only [enrichLead]
  rw [hllm]
  exact ⟨_, rfl⟩

/-- On an all-dict input the initialization-failure comprehension
produces one error record per lead. -/
theorem initFailList_eq_of_dicts (e : String) :
    ∀ leads : List Item, (∀ it ∈ leads, ∃ d, it = Item.dict d) →
      initFailList e leads =
        .ok ((leads.filterMap itemDict?).map (errorInitRecord e)) := by
  intro leads
  induction leads with
  | nil => intro _; rfl
  | cons it rest ih =>
    intro h
    obtain ⟨d, rfl⟩ := h it (List.mem_cons_self _ _)
    have := ih (fun it' h' => h it' (List.mem_cons_of_mem _ h'))
    simp [initFailList, this, itemDict?, List.filterMap_cons, Except.map]

theorem filterMap_itemDict_length :
    ∀ leads : List Item, (∀ it ∈ leads, ∃ d, it = Item.dict d) →
      (leads.filterMap itemDict?).length = leads.length := by
  intro leads
  induction leads with
  | nil => intro _; rfl
  | cons it rest ih =>
    intro h
    obtain ⟨d, rfl⟩ := h it (List.mem_cons_self _ _)
    have := ih (fun it' h' => h it' (List.mem_cons_of_mem _ h'))
    simp [List.filterMap_cons, itemDict?, this]

/-- The enriched leads of a successful-init run. -/
def enrichedOf (lk : PyVal → String) (llm : String → Except String String)
    (leads : List Item) : List Dict :=
  (leads.filterMap itemDict?).map (enrichLead lk llm)

/-- The rows `enrich_leads` persists and returns on a successful-init
run: the enriched leads with their outreach messages. -/
def enrichOutRows (lk : PyVal → String) (llm : String → Except String String)
    (gllm : Option (String → Except String String))
    (leads : List Item) (sig user ev : String) : List Dict :=
  (enrichedOf lk llm leads).map
    (fun d => dictSet d "outreach_message" (.vstr (genMsg gllm d sig ev user)))

/-- The full shape of a successful-init, non-empty-input `enrich_leads`
run: every dict item is enriched, every enriched lead gets its outreach
message drafted, and exactly those rows are saved as the `enriched`
stage, after all messages are drafted. -/
theorem enrichLeadsT_ok_shape (lk : PyVal → String)
    (llm : String → Except String String)
    (gllm : Option (String → Except String String)) (leads : List Item)
    (sig user ev : String) (hnil : leads ≠ [])
    (hdict : ∀ it ∈ leads, ∃ d, it = Item.dict d ∧
      dictGet d "description" (.vstr "") ≠ .vnone) :
    enrichLeadsT lk (.ok llm) gllm leads sig user ev =
      .ok (enrichOutRows lk llm gllm leads sig user ev,
        (enrichedOf lk llm leads).map
          (fun d => Ev.drafted (dictGet d "name" (.vstr "your company"))
            (genMsg gllm d sig ev user)) ++
        [.save "enriched" (enrichOutRows lk llm gllm leads sig user ev)]) := by
  have hdictOnly : ∀ it ∈ leads, ∃ d, it = Item.dict d :=
    fun it h => ⟨(hdict it h).choose, (hdict it h).choose_spec.1⟩
  have hinline : (leads.filterMap fun it => match it with
      | Item.dict d => some (enrichLead lk llm d)
      | Item.other _ => none) = enrichedOf lk llm leads := by
    unfold enrichedOf
    rw [List.map_filterMap]
    congr 1
    funext it
    cases it <;> rfl
  have hElen : (enrichedOf lk llm leads).length = leads.length := by
    unfold enrichedOf
    rw [List.length_map, filterMap_itemDict_length leads hdictOnly]
  have hEne : enrichedOf lk llm leads ≠ [] := by
    intro hE
    apply hnil
    have := hElen
    rw [hE] at this
    exact List.length_eq_zero.mp this.symm
  have hdesc' : ∀ d', Item.dict d' ∈ (enrichedOf lk llm leads).map Item.dict →
      dictGet d' "description" (.vstr "") ≠ .vnone := by
    intro d' hd'
    rcases List.mem_map.mp hd' with ⟨d0, hd0, hinj⟩
    have hd0' : d0 = d' := by injection hinj
    subst hd0'
    rcases List.mem_map.mp hd0 with ⟨d1, hd1, hd1e⟩
    rcases List.mem_filterMap.mp hd1 with ⟨it, hit, hsome⟩
    obtain ⟨d2, rfl, hd2desc⟩ := hdict it hit
    have : d2 = d1 := by simpa [itemDict?] using hsome
    subst this
    rw [← hd1e, enrichLead_preserves lk llm d2 "description" (by decide)]
    exact hd2desc
  have hgen := generateOutreachT_ok_of gllm sig user ev
    ((enrichedOf lk llm leads).map Item.dict) hdesc'
  have hfm : ((enrichedOf lk llm leads).map Item.dict).filterMap itemDict? =
      enrichedOf lk llm leads := by
    rw [List.filterMap_map]
    have heq : (itemDict? ∘ Item.dict) = (some ∘ fun d : Dict => d) := rfl
    rw [heq, List.filterMap_eq_map]
    simp
  rw [hfm] at hgen
  have hWne : enrichOutRows lk llm gllm leads sig user ev ≠ [] := by
    intro hW
    apply hEne
    have : (enrichOutRows lk llm gllm leads sig user ev).length = 0 := by
      rw [hW]; rfl
    unfold enrichOutRows at this
    rw [List.length_map] at this
    exact List.length_eq_zero.mp this
  simp only [enrichLeadsT]
  rw [if_neg hnil, hinline, if_pos hEne, hgen]
  simp only [Except.map]
  rw [if_neg (fun hc => hWne hc.1)]
  rfl

/-- Counterexample to C9 as stated: `enrich_leads` does raise.  With the
LLM unavailable and a non-dict item in the list, the init-failure branch
`[dict(lead, ...) for lead in leads]` hits `dict("not a dict", ...)` and
raises, while the per-lead loop would have skipped the item. -/
theorem c9_counterexample :
    enrichLeadsT (fun _ => "")
      (.error "OPENAI_API_KEY not found in environment variables.") none
      [.other "not a dict"] "\n\nBest regards,\nJane\nJCo" "Jane" =
    .error "TypeError: cannot convert to dict" := rfl

/-- C9 (amended): on all-dict inputs (with string descriptions, as the
pipeline produces) `enrich_leads` contains failures: LLM-init failure
yields one record per lead with `qualified="Error"`,
`actionable="Error"`, `outreach_message=""` and every original field
intact; a per-lead LLM exception leaves that lead in the output with
`qualified="Error"`, `actionable="No"`; and the successful-init path
returns exactly one record per dict item.  A non-dict item, however,
makes the init-failure branch raise a TypeError instead of returning. -/
theorem c9_error_containment (lk : PyVal → String)
    (gllm : Option (String → Except String String)) (leads : List Item)
    (sig user : String) (e : String)
    (hdict : ∀ it ∈ leads, ∃ d, it = Item.dict d ∧
      dictGet d "description" (.vstr "") ≠ .vnone) :
    (∃ out, enrichLeadsT lk (.error e) gllm leads sig user = .ok (out, []) ∧
      out = (leads.filterMap itemDict?).map (errorInitRecord e) ∧
      out.length = leads.length ∧
      ∀ d : Dict,
        dictGet (errorInitRecord e d) "qualified" .vnone = .vstr "Error" ∧
        dictGet (errorInitRecord e d) "actionable" .vnone = .vstr "Error" ∧
        dictGet (errorInitRecord e d) "outreach_message" .vnone = .vstr "" ∧
        (∀ k, k ∉ ["qualified", "actionable", "qualification_rationale",
            "outreach_message"] →
          ∀ dflt, dictGet (errorInitRecord e d) k dflt = dictGet d k dflt)) ∧
    (∀ llm : String → Except String String, ∀ d : Dict, ∀ msg,
      llm (enrichPrompt (dictGet d "name" (.vstr "")).pyStr
        (dictGet d "description" (.vstr "No description available")).pyStr)
          = .error msg →
      dictGet (enrichLead lk llm d) "qualified" .vnone = .vstr "Error" ∧
      dictGet (enrichLead lk llm d) "actionable" .vnone = .vstr "No") ∧
    (∀ llm : String → Except String String, ∃ out evs,
      enrichLeadsT lk (.ok llm) gllm leads sig user = .ok (out, evs) ∧
      out.length = leads.length) := by
  have hdictOnly : ∀ it ∈ leads, ∃ d, it = Item.dict d :=
    fun it h => ⟨(hdict it h).choose, (hdict it h).choose_spec.1⟩
  refine ⟨?_, ?_, ?_⟩
  · by_cases hnil : leads = []
    · subst hnil
      exact ⟨[], rfl, rfl, rfl, fun d => errorInitRecord_fields e d⟩
    · refine ⟨(leads.filterMap itemDict?).map (errorInitRecord e), ?_, rfl, ?_,
        fun d => errorInitRecord_fields e d⟩
      · unfold enrichLeadsT
        rw [if_neg hnil]
        show (initFailList e leads).map _ = _
        rw [initFailList_eq_of_dicts e leads hdictOnly]
        rfl
      · rw [List.length_map, filterMap_itemDict_length leads hdictOnly]
  · intro llm d msg hllm
    obtain ⟨d2, hshape⟩ := enrichLead_error_shape lk llm d msg hllm
    constructor
    · rw [hshape, dictGet_dictSet_ne _ _ _ _ _ (by decide),
        dictGet_dictSet_ne _ _ _ _ _ (by decide),
        dictGet_dictSet_ne _ _ _ _ _ (by decide), dictGet_dictSet_self]
    · rw [hshape, dictGet_dictSet_ne _ _ _ _ _ (by decide), dictGet_dictSet_self]
  · intro llm
    by_cases hnil : leads = []
    · subst hnil
      exact ⟨[], [], rfl, rfl⟩
    · refine ⟨_, _, enrichLeadsT_ok_shape lk llm gllm leads sig user _ hnil hdict, ?_⟩
      unfold enrichOutRows enrichedOf
      rw [List.length_map, List.length_map, filterMap_itemDict_length leads hdictOnly]

/-- Witness for the amended C9 on a one-lead input and failing init. -/
theorem c9_error_containment_witness :
    ∃ out, enrichLeadsT (fun _ => "") (.error "no key") none
      [.dict [("name", .vstr "Acme"), ("description", .vstr "prints signs")]]
      "SIG" "Jane" = .ok (out, []) ∧
    out = ([Item.dict [("name", .vstr "Acme"), ("description", .vstr "prints signs")]].filterMap
        itemDict?).map (errorInitRecord "no key") ∧
    out.length = 1 ∧
    ∀ d : Dict,
      dictGet (errorInitRecord "no key" d) "qualified" .vnone = .vstr "Error" ∧
      dictGet (errorInitRecord "no key" d) "actionable" .vnone = .vstr "Error" ∧
      dictGet (errorInitRecord "no key" d) "outreach_message" .vnone = .vstr "" ∧
      (∀ k, k ∉ ["qualified", "actionable", "qualification_rationale",
          "outreach_message"] →
        ∀ dflt, dictGet (errorInitRecord "no key" d) k dflt = dictGet d k dflt) := by
  have h := (c9_error_containment (fun _ => "") none
    [.dict [("name", .vstr "Acme"), ("description", .vstr "prints signs")]]
    "SIG" "Jane" "no key"
    (by
      intro it hit
      simp only [List.mem_singleton] at hit
      subst hit
      exact ⟨_, rfl, by decide⟩)).1
  exact h

/-! ## C1: the stage order of the pipeline -/

theorem filterMap_itemDict_map_dict (ds : List Dict) :
    (ds.map Item.dict).filterMap itemDict? = ds := by
  rw [List.filterMap_map]
  have heq : (itemDict? ∘ Item.dict) = (some ∘ fun d : Dict => d) := rfl
  rw [heq, List.filterMap_eq_map]
  simp

/-- `generate_outreach` on a list of dicts (with string descriptions)
returns them in order, each with its message. -/
theorem generateOutreach_dicts (gllm : Option (String → Except String String))
    (ds : List Dict) (sig user ev : String)
    (hd : ∀ d ∈ ds, dictGet d "description" (.vstr "") ≠ .vnone) :
    generateOutreach gllm (ds.map Item.dict) sig user ev =
      .ok (ds.map (fun d => dictSet d "outreach_message"
        (.vstr (genMsg gllm d sig ev user)))) := by
  unfold generateOutreach
  rw [generateOutreachT_ok_of gllm sig user ev (ds.map Item.dict) ?hdesc]
  case hdesc =>
    intro d' hd'
    rcases List.mem_map.mp hd' with ⟨d0, h0, hinj⟩
    have h01 : d0 = d' := by injection hinj
    subst h01
    exact hd d0 h0
  rw [filterMap_itemDict_map_dict]
  rfl

/-- Every lead `search_leads` returns carries a string description. -/
theorem searchLeads_desc_string (crawlResult : List Item) (serpOk : Bool)
    (serpResult : List Item) (keyword : String) :
    ∀ lead ∈ (searchLeadsT crawlResult serpOk serpResult keyword).1,
      dictGet lead "description" (.vstr "") ≠ .vnone := by
  intro lead h
  rcases List.mem_filterMap.mp h with ⟨it, _, hsome⟩
  cases it with
  | other t => exact absurd hsome (by simp)
  | dict d =>
    have hlead : normalizeLead d = lead := by simpa using hsome
    subst hlead
    obtain ⟨s, hs, _, _⟩ := (normalizeLead_spec d).2.2.1
    simp [hs]

/-- The search stage never saves the `enriched` CSV. -/
theorem searchEvs_no_enriched_save (crawlResult : List Item) (serpOk : Bool)
    (serpResult : List Item) (keyword : String) :
    ∀ rows, Ev.save "enriched" rows ∉
      (searchLeadsT crawlResult serpOk serpResult keyword).2 := by
  intro rows hmem
  simp only [searchLeadsT] at hmem
  rcases List.mem_append.mp hmem with h | h
  · rcases hf : EVENT_LINKS.find? (fun p : String × String => p.1 = pyUpper keyword)
        with _ | p <;> rw [hf] at h
    · by_cases hserp : serpOk = true
      · simp [hserp] at h
      · simp [hserp] at h
    · simp at h
  · split at h
    · simp at h
    · simp at h

/-- The full shape of a successful run of `main`: search events first,
then one drafted event per enriched lead, then the single `enriched`
save whose rows are the outreach output. -/
theorem runMain_ok_shape (crawlResult : List Item) (serpOk : Bool)
    (serpResult : List Item) (lk : PyVal → String)
    (llm : String → Except String String)
    (gllm : Option (String → Except String String))
    (eventName userName userCompany : String)
    (hfound : (searchLeadsT crawlResult serpOk serpResult eventName).1 ≠ []) :
    runMain crawlResult serpOk serpResult lk (.ok llm) gllm eventName
        userName userCompany =
      .ok (enrichOutRows lk llm gllm
            ((searchLeadsT crawlResult serpOk serpResult eventName).1.map Item.dict)
            ("\n\nBest regards,\n" ++ userName ++ "\n" ++ userCompany) userName
            "ISA Sign Expo 2025",
        (searchLeadsT crawlResult serpOk serpResult eventName).2 ++
          ((enrichedOf lk llm
              ((searchLeadsT crawlResult serpOk serpResult eventName).1.map Item.dict)).map
            (fun d => Ev.drafted (dictGet d "name" (.vstr "your company"))
              (genMsg gllm d
                ("\n\nBest regards,\n" ++ userName ++ "\n" ++ userCompany)
                "ISA Sign Expo 2025" userName)) ++
           [Ev.save "enriched" (enrichOutRows lk llm gllm
              ((searchLeadsT crawlResult serpOk serpResult eventName).1.map Item.dict)
              ("\n\nBest regards,\n" ++ userName ++ "\n" ++ userCompany) userName
              "ISA Sign Expo 2025")])) := by
  set found := (searchLeadsT crawlResult serpOk serpResult eventName).1 with hfoundDef
  set sig := "\n\nBest regards,\n" ++ userName ++ "\n" ++ userCompany with hsig
  have hdict : ∀ it ∈ found.map Item.dict, ∃ d, it = Item.dict d ∧
      dictGet d "description" (.vstr "") ≠ .vnone := by
    intro it hit
    rcases List.mem_map.mp hit with ⟨d, hd, rfl⟩
    exact ⟨d, rfl, searchLeads_desc_string crawlResult serpOk serpResult eventName d hd⟩
  have hnil : found.map Item.dict ≠ [] := by
    intro hc
    exact hfound (List.map_eq_nil_iff.mp hc)
  have hshape := enrichLeadsT_ok_shape lk llm gllm (found.map Item.dict)
    sig userName "ISA Sign Expo 2025" hnil hdict
  simp only [runMain]
  rw [if_neg hfound, hshape]
  rfl

/-- C1: in a run where the search stage found leads and the enrichment
LLM initialized, the found list is enriched, every outreach message is
generated (drafted) before the enriched stage is persisted (the save is
the last event), and the rows saved to `db/enriched.csv` are exactly the
list `generate_outreach` returned. -/
theorem c1_pipeline_order (crawlResult : List Item) (serpOk : Bool)
    (serpResult : List Item) (lk : PyVal → String)
    (llm : String → Except String String)
    (gllm : Option (String → Except String String))
    (eventName userName userCompany : String)
    (hfound : (searchLeadsT crawlResult serpOk serpResult eventName).1 ≠ []) :
    ∃ rows trace pre,
      runMain crawlResult serpOk serpResult lk (.ok llm) gllm eventName
        userName userCompany = .ok (rows, trace) ∧
      rows = enrichOutRows lk llm gllm
        ((searchLeadsT crawlResult serpOk serpResult eventName).1.map Item.dict)
        ("\n\nBest regards,\n" ++ userName ++ "\n" ++ userCompany) userName
        "ISA Sign Expo 2025" ∧
      generateOutreach gllm
        ((enrichedOf lk llm
          ((searchLeadsT crawlResult serpOk serpResult eventName).1.map Item.dict)).map
            Item.dict)
        ("\n\nBest regards,\n" ++ userName ++ "\n" ++ userCompany) userName
        "ISA Sign Expo 2025" = .ok rows ∧
      trace = pre ++ [Ev.save "enriched" rows] ∧
      (∀ d ∈ enrichedOf lk llm
          ((searchLeadsT crawlResult serpOk serpResult eventName).1.map Item.dict),
        Ev.drafted (dictGet d "name" (.vstr "your company"))
          (genMsg gllm d ("\n\nBest regards,\n" ++ userName ++ "\n" ++ userCompany)
            "ISA Sign Expo 2025" userName) ∈ pre) ∧
      (∀ r, Ev.save "enriched" r ∈ trace → r = rows) := by
  set found := (searchLeadsT crawlResult serpOk serpResult eventName).1 with hfoundDef
  set sig := "\n\nBest regards,\n" ++ userName ++ "\n" ++ userCompany with hsig
  have hdict : ∀ it ∈ found.map Item.dict, ∃ d, it = Item.dict d ∧
      dictGet d "description" (.vstr "") ≠ .vnone := by
    intro it hit
    rcases List.mem_map.mp hit with ⟨d, hd, rfl⟩
    exact ⟨d, rfl, searchLeads_desc_string crawlResult serpOk serpResult eventName d hd⟩
  refine ⟨enrichOutRows lk llm gllm (found.map Item.dict) sig userName "ISA Sign Expo 2025",
    (searchLeadsT crawlResult serpOk serpResult eventName).2 ++
      ((enrichedOf lk llm (found.map Item.dict)).map
        (fun d => Ev.drafted (dictGet d "name" (.vstr "your company"))
          (genMsg gllm d sig "ISA Sign Expo 2025" userName)) ++
       [Ev.save "enriched" (enrichOutRows lk llm gllm (found.map Item.dict) sig
         userName "ISA Sign Expo 2025")]),
    (searchLeadsT crawlResult serpOk serpResult eventName).2 ++
      (enrichedOf lk llm (found.map Item.dict)).map
        (fun d => Ev.drafted (dictGet d "name" (.vstr "your company"))
          (genMsg gllm d sig "ISA Sign Expo 2025" userName)),
    ?_, rfl, ?_, ?_, ?_, ?_⟩
  · exact runMain_ok_shape crawlResult serpOk serpResult lk llm gllm eventName
      userName userCompany hfound
  · refine generateOutreach_dicts gllm _ sig userName "ISA Sign Expo 2025" ?_
    intro d hd
    unfold enrichedOf at hd
    rcases List.mem_map.mp hd with ⟨d0, hd0, hde⟩
    rcases List.mem_filterMap.mp hd0 with ⟨it, hit, hsome⟩
    obtain ⟨d1, rfl, hdesc1⟩ := hdict it hit
    have h11 : d1 = d0 := by simpa [itemDict?] using hsome
    subst h11
    rw [← hde, enrichLead_preserves lk llm d1 "description" (by decide)]
    exact hdesc1
  · rw [List.append_assoc]
  · intro d hd
    exact List.mem_append_right _ (List.mem_map.mpr ⟨d, hd, rfl⟩)
  · intro r hr
    rcases List.mem_append.mp hr with h | h
    · exact absurd h (searchEvs_no_enriched_save crawlResult serpOk serpResult eventName r)
    · rcases List.mem_append.mp h with h1 | h1
      · rcases List.mem_map.mp h1 with ⟨d, _, hinj⟩
        exact absurd hinj (by simp)
      · simpa using List.mem_singleton.mp h1

/-- Witness for C1 in the unconfigured-SerpAPI branch: the run persists
the enriched stage last, with exactly the outreach rows. -/
theorem c1_pipeline_order_witness :
    (searchLeadsT [] false [] "digital signage").1 ≠ [] ∧
    ∃ rows trace pre,
      runMain [] false [] (fun _ => "") (.ok (fun _ => .ok "Yes ###RATIONALE### fits"))
        none "digital signage" "Jane" "JCo" = .ok (rows, trace) ∧
      trace = pre ++ [Ev.save "enriched" rows] := by
  refine ⟨by decide, ?_⟩
  obtain ⟨rows, trace, pre, h1, _, _, h4, _, _⟩ :=
    c1_pipeline_order [] false [] (fun _ => "")
      (fun _ => .ok "Yes ###RATIONALE### fits") none "digital signage" "Jane" "JCo"
      (by decide)
  exact ⟨rows, trace, pre, h1, h4⟩

/-! ## C2: the `judge_message` guardrail is never applied

`judge_message` (utils/judge.py) is registered as a LangChain agent tool
in main_backend.py but no pipeline code path ever calls it: the only
revision applied to outreach messages is `refine_outreach_message` of
utils/guardrail.py, inside `_generate_and_refine_message_for_single_lead`. -/

theorem generateOutreachT_no_judged (gllm : Option (String → Except String String))
    (sig user ev m : String) :
    ∀ (items : List Item) (out : List Dict) (evs : List Ev),
      generateOutreachT gllm items sig user ev = .ok (out, evs) →
      Ev.judged m ∉ evs := by
  intro items
  induction items with
  | nil =>
    intro out evs h
    have hpair : (([] : List Dict), ([] : List Ev)) = (out, evs) := Except.ok.inj h
    have h2 : evs = [] := (congrArg Prod.snd hpair).symm
    rw [h2]
    simp
  | cons it rest ih =>
    cases it with
    | other t =>
      intro out evs h
      exact ih out evs h
    | dict d =>
      intro out evs h
      simp only [generateOutreachT] at h
      cases hg : genRefineSingle gllm d sig ev user with
      | error e =>
        rw [hg] at h
        exact absurd h (by simp [Bind.bind, Except.bind])
      | ok msg =>
        rw [hg] at h
        cases hr : generateOutreachT gllm rest sig user ev with
        | error e =>
          rw [hr] at h
          exact absurd h (by simp [Bind.bind, Except.bind])
        | ok p =>
          obtain ⟨tail, evs0⟩ := p
          rw [hr] at h
          simp only [Bind.bind, Except.bind] at h
          have hpair := Except.ok.inj h
          have h2 : evs = Ev.drafted (dictGet d "name" (.vstr "your company")) msg
              :: evs0 := (congrArg Prod.snd hpair).symm
          rw [h2]
          intro hm
          rcases List.mem_cons.mp hm with hc | hc
          · exact Ev.noConfusion hc
          · exact ih tail evs0 hr hc

theorem enrichLeadsT_no_judged (lk : PyVal → String)
    (llmInit : Except String (String → Except String String))
    (gllm : Option (String → Except String String)) (leads : List Item)
    (sig user m : String) (out : List Dict) (evs : List Ev)
    (h : enrichLeadsT lk llmInit gllm leads sig user = .ok (out, evs)) :
    Ev.judged m ∉ evs := by
  by_cases hnil : leads = []
  · subst hnil
    have hpair : (([] : List Dict), ([] : List Ev)) = (out, evs) := Except.ok.inj h
    have h2 : evs = [] := (congrArg Prod.snd hpair).symm
    rw [h2]
    simp
  · simp only [enrichLeadsT] at h
    rw [if_neg hnil] at h
    cases llmInit with
    | error e =>
      have h' : Except.map (fun l : List Dict => (l, ([] : List Ev)))
          (initFailList e leads) = .ok (out, evs) := h
      cases hi : initFailList e leads with
      | error e2 =>
        rw [hi] at h'
        exact absurd h' (by simp [Except.map])
      | ok l =>
        rw [hi] at h'
        simp only [Except.map] at h'
        have hpair := Except.ok.inj h'
        have h2 : evs = [] := (congrArg Prod.snd hpair).symm
        rw [h2]
        simp
    | ok llm =>
      set E := leads.filterMap (fun it => match it with
        | Item.dict d => some (enrichLead lk llm d)
        | Item.other _ => none) with hE
      have h' : (if E ≠ [] then
            generateOutreachT gllm (E.map Item.dict) sig user "ISA Sign Expo 2025"
          else .ok ([], [])).map
          (fun p =>
            if p.1 = [] ∧ E ≠ [] then (E, p.2 ++ [Ev.save "enriched" E])
            else (p.1, p.2 ++ [Ev.save "enriched" p.1])) = .ok (out, evs) := h
      cases hg : (if E ≠ [] then
          generateOutreachT gllm (E.map Item.dict) sig user "ISA Sign Expo 2025"
        else .ok ([], [])) with
      | error e =>
        rw [hg] at h'
        exact absurd h' (by simp [Except.map])
      | ok p =>
        obtain ⟨w, evs0⟩ := p
        have hinner : Ev.judged m ∉ evs0 := by
          revert hg
          split
          · intro hg
            exact generateOutreachT_no_judged gllm sig user "ISA Sign Expo 2025" m
              (E.map Item.dict) w evs0 hg
          · intro hg
            have hpair := Except.ok.inj hg
            have h2 : evs0 = [] := by simpa using (congrArg Prod.snd hpair).symm
            rw [h2]
            simp
        rw [hg] at h'
        simp only [Except.map] at h'
        split at h'
        · have hpair := Except.ok.inj h'
          have h2 : evs = evs0 ++ [Ev.save "enriched" E] :=
            (congrArg Prod.snd hpair).symm
          rw [h2]
          intro hm
          rcases List.mem_append.mp hm with hc | hc
          · exact hinner hc
          · exact Ev.noConfusion (List.mem_singleton.mp hc)
        · have hpair := Except.ok.inj h'
          have h2 : evs = evs0 ++ [Ev.save "enriched" w] :=
            (congrArg Prod.snd hpair).symm
          rw [h2]
          intro hm
          rcases List.mem_append.mp hm with hc | hc
          · exact hinner hc
          · exact Ev.noConfusion (List.mem_singleton.mp hc)

theorem searchEvs_no_judged (crawlResult : List Item) (serpOk : Bool)
    (serpResult : List Item) (keyword : String) :
    ∀ m, Ev.judged m ∉ (searchLeadsT crawlResult serpOk serpResult keyword).2 := by
  intro m hmem
  simp only [searchLeadsT] at hmem
  rcases List.mem_append.mp hmem with h | h
  · rcases hf : EVENT_LINKS.find? (fun p : String × String => p.1 = pyUpper keyword)
        with _ | p <;> rw [hf] at h
    · by_cases hserp : serpOk = true
      · simp [hserp] at h
      · simp [hserp] at h
    · simp at h
  · split at h
    · simp at h
    · simp at h

/-- No run of the pipeline ever applies `judge_message`: its trace holds
no `judged` event. -/
theorem runMain_no_judged (crawlResult : List Item) (serpOk : Bool)
    (serpResult : List Item) (lk : PyVal → String)
    (llmInit : Except String (String → Except String String))
    (gllm : Option (String → Except String String))
    (eventName userName userCompany : String) (m : String)
    (rows : List Dict) (trace : List Ev)
    (hrun : runMain crawlResult serpOk serpResult lk llmInit gllm eventName
      userName userCompany = .ok (rows, trace)) :
    Ev.judged m ∉ trace := by
  simp only [runMain] at hrun
  by_cases hfound : (searchLeadsT crawlResult serpOk serpResult eventName).1 = []
  · rw [if_pos hfound] at hrun
    have hpair := Except.ok.inj hrun
    have h2 : trace = (searchLeadsT crawlResult serpOk serpResult eventName).2 :=
      (congrArg Prod.snd hpair).symm
    rw [h2]
    exact searchEvs_no_judged crawlResult serpOk serpResult eventName m
  · rw [if_neg hfound] at hrun
    cases he : enrichLeadsT lk llmInit gllm
        ((searchLeadsT crawlResult serpOk serpResult eventName).1.map Item.dict)
        ("\n\nBest regards,\n" ++ userName ++ "\n" ++ userCompany) userName with
    | error e =>
      rw [he] at hrun
      exact absurd hrun (by simp [Except.map])
    | ok p =>
      obtain ⟨r0, evs0⟩ := p
      rw [he] at hrun
      simp only [Except.map] at hrun
      have hpair := Except.ok.inj hrun
      have htr : trace =
          (searchLeadsT crawlResult serpOk serpResult eventName).2 ++ evs0 :=
        (congrArg Prod.snd hpair).symm
      rw [htr]
      intro hm
      rcases List.mem_append.mp hm with hc | hc
      · exact searchEvs_no_judged crawlResult serpOk serpResult eventName m hc
      · exact enrichLeadsT_no_judged lk llmInit gllm _ _ _ m r0 evs0 he hc

/-- Counterexample to C2 as stated: a concrete run drafts and persists
an outreach message, yet no `judge_message` check occurs anywhere in the
run — the only revision applied is the guardrail refine. -/
theorem c2_counterexample :
    ∃ rows trace,
      runMain [] false [] (fun _ => "")
        (.ok (fun _ => .ok "Yes ###RATIONALE### fits")) none
        "digital signage" "Jane" "JCo" = .ok (rows, trace) ∧
      (∃ c msg, Ev.drafted c msg ∈ trace) ∧
      Ev.save "enriched" rows ∈ trace ∧
      (∀ m, Ev.judged m ∉ trace) := by
  have hfound : (searchLeadsT [] false [] "digital signage").1 ≠ [] := by decide
  have hshape := runMain_ok_shape [] false [] (fun _ => "")
    (fun _ => .ok "Yes ###RATIONALE### fits") none "digital signage" "Jane" "JCo" hfound
  refine ⟨_, _, hshape, ?_, ?_, ?_⟩
  · have hne : enrichedOf (fun _ => "") (fun _ => .ok "Yes ###RATIONALE### fits")
        ((searchLeadsT [] false [] "digital signage").1.map Item.dict) ≠ [] := by
      decide
    obtain ⟨d, hd⟩ := List.exists_mem_of_ne_nil _ hne
    exact ⟨_, _, List.mem_append_right _
      (List.mem_append_left _ (List.mem_map.mpr ⟨d, hd, rfl⟩))⟩
  · exact List.mem_append_right _ (List.mem_append_right _ (List.mem_singleton.mpr rfl))
  · intro m
    exact runMain_no_judged [] false [] (fun _ => "")
      (.ok (fun _ => .ok "Yes ###RATIONALE### fits")) none
      "digital signage" "Jane" "JCo" m _ _ hshape

/-- C2 (amended): every drafted message is the guardrail-refined body
(`refine_outreach_message`) with the signature appended, and
`judge_message` is never applied: no run's trace contains a `judged`
event. -/
theorem c2_guardrail_only (crawlResult : List Item) (serpOk : Bool)
    (serpResult : List Item) (lk : PyVal → String)
    (llmInit : Except String (String → Except String String))
    (gllm : Option (String → Except String String))
    (eventName userName userCompany : String) (m : String)
    (rows : List Dict) (trace : List Ev)
    (hrun : runMain crawlResult serpOk serpResult lk llmInit gllm eventName
      userName userCompany = .ok (rows, trace)) :
    Ev.judged m ∉ trace ∧
    (∀ (gllm' : Option (String → Except String String)) (d : Dict)
        (sig evn usr s : String),
      dictGet d "description" (.vstr "") = .vstr s →
      genMsg gllm' d sig evn usr =
        refineOutreachMessage gllm'
          ("Follow-up after seeing " ++ (dictGet d "name" (.vstr "your company")).pyStr ++
            " at " ++ evn ++ " regarding " ++ pyTake s 70 ++ "...")
          (dictGet d "name" (.vstr "your company")).pyStr s evn usr ++ sig) := by
  constructor
  · exact runMain_no_judged crawlResult serpOk serpResult lk llmInit gllm
      eventName userName userCompany m rows trace hrun
  · intro gllm' d sig evn usr s hd
    unfold genMsg genRefineSingle
    rw [hd]

/-- Witness for the amended C2 at a concrete run. -/
theorem c2_guardrail_only_witness :
    Ev.judged "spam check" ∉
      (match runMain [] false [] (fun _ => "")
          (.ok (fun _ => .ok "Yes ###RATIONALE### fits")) none
          "digital signage" "Jane" "JCo" with
        | .ok p => p.2
        | .error _ => []) := by
  cases hrun : runMain [] false [] (fun _ => "")
      (.ok (fun _ => .ok "Yes ###RATIONALE### fits")) none
      "digital signage" "Jane" "JCo" with
  | error e => simp
  | ok p =>
    have h := (c2_guardrail_only [] false [] (fun _ => "")
      (.ok (fun _ => .ok "Yes ###RATIONALE### fits")) none
      "digital signage" "Jane" "JCo" "spam check" p.1 p.2
      (by cases p; exact hrun)).1
    simpa using h

/-! ## C7: the enrichment and outreach loops are deterministic

The loops of `enrich_leads` and `generate_outreach` as small-step
transition relations on (remaining input, accumulated output), one
constructor per branch of the loop body.  With the external services
fixed as response functions, the relations are functional, terminal
states are unique, and any complete run from a given input computes
exactly the batch transform. -/

/-- State of the per-lead loop of `enrich_leads`. -/
structure EnrichState where
  pending : List Item
  done : List Dict
deriving DecidableEq, Repr

/-- One iteration of the per-lead loop of `enrich_leads`: enrich and
append a dict lead, skip a non-dict item. -/
inductive EnrichStep (lk : PyVal → String) (llm : String → Except String String) :
    EnrichState → EnrichState → Prop where
  | enrich (d : Dict) (rest : List Item) (done : List Dict) :
      EnrichStep lk llm ⟨Item.dict d :: rest, done⟩
        ⟨rest, done ++ [enrichLead lk llm d]⟩
  | skip (t : String) (rest : List Item) (done : List Dict) :
      EnrichStep lk llm ⟨Item.other t :: rest, done⟩ ⟨rest, done⟩

/-- State of the loop of `generate_outreach`. -/
structure OutreachState where
  pending : List Item
  updated : List Dict
deriving DecidableEq, Repr

/-- One iteration of the loop of `generate_outreach`: draft the message
for a dict lead (when the guardrail call completes) and append the
updated copy, skip a non-dict item. -/
inductive OutreachStep (gllm : Option (String → Except String String))
    (sig user ev : String) : OutreachState → OutreachState → Prop where
  | draft (d : Dict) (rest : List Item) (updated : List Dict) (msg : String)
      (hmsg : genRefineSingle gllm d sig ev user = .ok msg) :
      OutreachStep gllm sig user ev ⟨Item.dict d :: rest, updated⟩
        ⟨rest, updated ++ [dictSet d "outreach_message" (.vstr msg)]⟩
  | skip (t : String) (rest : List Item) (updated : List Dict) :
      OutreachStep gllm sig user ev ⟨Item.other t :: rest, updated⟩ ⟨rest, updated⟩

/-- Unique final states of a deterministic relation. -/
theorem reflTransGen_unique_final {α} {r : α → α → Prop}
    (hdet : ∀ ⦃s t t'⦄, r s t → r s t' → t = t')
    {final : α → Prop} (hfin : ∀ ⦃s t⦄, final s → ¬ r s t) :
    ∀ {s f1 f2}, Relation.ReflTransGen r s f1 → final f1 →
      Relation.ReflTransGen r s f2 → final f2 → f1 = f2 := by
  intro s f1 f2 h1
  induction h1 using Relation.ReflTransGen.head_induction_on with
  | refl =>
    intro hf1 h2 hf2
    rcases Relation.ReflTransGen.cases_head h2 with h3 | ⟨t, h3, _⟩
    · exact h3
    · exact absurd h3 (hfin hf1)
  | head hst h1' ih =>
    intro hf1 h2 hf2
    rcases Relation.ReflTransGen.cases_head h2 with h3 | ⟨t', h3, h4⟩
    · subst h3
      exact absurd hst (hfin hf2)
    · have := hdet hst h3
      subst this
      exact ih hf1 h4 hf2

theorem enrichStep_det (lk : PyVal → String) (llm : String → Except String String) :
    ∀ ⦃s t t' : EnrichState⦄, EnrichStep lk llm s t → EnrichStep lk llm s t' →
      t = t' := by
  intro s t t' h1 h2
  cases h1 <;> cases h2 <;> rfl

theorem outreachStep_det (gllm : Option (String → Except String String))
    (sig user ev : String) :
    ∀ ⦃s t t' : OutreachState⦄, OutreachStep gllm sig user ev s t →
      OutreachStep gllm sig user ev s t' → t = t' := by
  intro s t t' h1 h2
  cases h1 with
  | draft d rest updated msg hmsg =>
    cases h2 with
    | draft d' rest' updated' msg' hmsg' =>
      have : msg = msg' := by
        have := hmsg.symm.trans hmsg'
        exact Except.ok.inj this
      rw [this]
  | skip t0 rest updated =>
    cases h2 with
    | skip _ _ _ => rfl

theorem enrichState_final_no_step (lk : PyVal → String)
    (llm : String → Except String String) :
    ∀ ⦃s t : EnrichState⦄, s.pending = [] → ¬ EnrichStep lk llm s t := by
  intro s t hfin hstep
  cases hstep <;> simp at hfin

theorem outreachState_final_no_step (gllm : Option (String → Except String String))
    (sig user ev : String) :
    ∀ ⦃s t : OutreachState⦄, s.pending = [] → ¬ OutreachStep gllm sig user ev s t := by
  intro s t hfin hstep
  cases hstep <;> simp at hfin

/-- A complete enrichment run exists and computes the batch transform. -/
theorem enrichRun_exists (lk : PyVal → String) (llm : String → Except String String) :
    ∀ (items : List Item) (done : List Dict),
      Relation.ReflTransGen (EnrichStep lk llm) ⟨items, done⟩
        ⟨[], done ++ items.filterMap (fun it => match it with
          | Item.dict d => some (enrichLead lk llm d)
          | Item.other _ => none)⟩ := by
  intro items
  induction items with
  | nil =>
    intro done
    simp only [List.filterMap_nil, List.append_nil]
    exact Relation.ReflTransGen.refl
  | cons it rest ih =>
    intro done
    cases it with
    | dict d =>
      refine Relation.ReflTransGen.head (EnrichStep.enrich d rest done) ?_
      have := ih (done ++ [enrichLead lk llm d])
      simpa [List.filterMap_cons, List.append_assoc] using this
    | other t =>
      refine Relation.ReflTransGen.head (EnrichStep.skip t rest done) ?_
      simpa [List.filterMap_cons] using ih done

/-- C7: with the external services modelled as fixed response functions,
both loops are deterministic transition systems: each step relation is
functional, and two complete runs of the enrichment loop from equal
inputs end in the same state — whose output is exactly the batch
transform of the input (one enriched record per dict item); likewise two
complete outreach runs from equal inputs agree. -/
theorem c7_deterministic_loops (lk : PyVal → String)
    (llm : String → Except String String)
    (gllm : Option (String → Except String String)) (sig user ev : String) :
    (∀ ⦃s t t' : EnrichState⦄, EnrichStep lk llm s t → EnrichStep lk llm s t' →
      t = t') ∧
    (∀ ⦃s t t' : OutreachState⦄, OutreachStep gllm sig user ev s t →
      OutreachStep gllm sig user ev s t' → t = t') ∧
    (∀ (items : List Item) (f1 f2 : EnrichState),
      Relation.ReflTransGen (EnrichStep lk llm) ⟨items, []⟩ f1 → f1.pending = [] →
      Relation.ReflTransGen (EnrichStep lk llm) ⟨items, []⟩ f2 → f2.pending = [] →
      f1 = f2) ∧
    (∀ (items : List Item) (f1 f2 : OutreachState),
      Relation.ReflTransGen (OutreachStep gllm sig user ev) ⟨items, []⟩ f1 →
        f1.pending = [] →
      Relation.ReflTransGen (OutreachStep gllm sig user ev) ⟨items, []⟩ f2 →
        f2.pending = [] →
      f1 = f2) ∧
    (∀ (items : List Item) (f : EnrichState),
      Relation.ReflTransGen (EnrichStep lk llm) ⟨items, []⟩ f → f.pending = [] →
      f.done = items.filterMap (fun it => match it with
        | Item.dict d => some (enrichLead lk llm d)
        | Item.other _ => none)) := by
  refine ⟨enrichStep_det lk llm, outreachStep_det gllm sig user ev, ?_, ?_, ?_⟩
  · intro items f1 f2 h1 hf1 h2 hf2
    exact reflTransGen_unique_final (enrichStep_det lk llm)
      (enrichState_final_no_step lk llm) h1 hf1 h2 hf2
  · intro items f1 f2 h1 hf1 h2 hf2
    exact reflTransGen_unique_final (outreachStep_det gllm sig user ev)
      (outreachState_final_no_step gllm sig user ev) h1 hf1 h2 hf2
  · intro items f hrun hfin
    have hexists := enrichRun_exists lk llm items []
    have huniq := reflTransGen_unique_final (enrichStep_det lk llm)
      (enrichState_final_no_step lk llm) hrun hfin hexists (by rfl)
    rw [huniq]
    simp

/-- Witness for C7 at a concrete two-item run: applying the determinism
and unique-final-state theorem to explicit derivations. -/
theorem c7_deterministic_loops_witness :
    (⟨[], [enrichLead (fun _ => "") (fun _ => .ok "Yes ###RATIONALE### r")
        [("name", .vstr "A"), ("description", .vstr "d")]]⟩ : EnrichState).done =
      [Item.dict [("name", .vstr "A"), ("description", .vstr "d")],
        Item.other "x"].filterMap (fun it => match it with
          | Item.dict d => some (enrichLead (fun _ => "")
              (fun _ => .ok "Yes ###RATIONALE### r") d)
          | Item.other _ => none) := by
  have h := (c7_deterministic_loops (fun _ => "")
    (fun _ => .ok "Yes ###RATIONALE### r") none "SIG" "U" "Expo").2.2.2.2
    [Item.dict [("name", .vstr "A"), ("description", .vstr "d")], Item.other "x"]
    ⟨[], [enrichLead (fun _ => "") (fun _ => .ok "Yes ###RATIONALE### r")
      [("name", .vstr "A"), ("description", .vstr "d")]]⟩
    (Relation.ReflTransGen.head
      (EnrichStep.enrich [("name", .vstr "A"), ("description", .vstr "d")]
        [Item.other "x"] [])
      (Relation.ReflTransGen.head
        (EnrichStep.skip "x" []
          [enrichLead (fun _ => "") (fun _ => .ok "Yes ###RATIONALE### r")
            [("name", .vstr "A"), ("description", .vstr "d")]])
        Relation.ReflTransGen.refl))
    rfl
  simpa using h

/-! ## C10: `clean_text` and idempotence

`clean_text` is not idempotent: removing a boilerplate match can splice
its surroundings into a fresh match (`re.sub` never rescans across the
seam, so the fresh match survives the pass), and in the description
branch the final `strip()` can expose a trailing character that the
edge-trim removes only on a second pass.  It is idempotent (for
`is_description=False`) whenever the first output is free of `<` and of
every boilerplate pattern head, proven below. -/

/-- A pass over a text none of whose suffixes the matcher accepts is the
identity. -/
theorem subAllGo_id (m : List Char → Option Nat) (repl : List Char) :
    ∀ (fuel : Nat) (l : List Char),
      (∀ t, t <:+ l → ∀ n, m t ≠ some (n + 1)) →
      subAllGo m repl fuel l = l := by
  intro fuel
  induction fuel with
  | zero => intro l _; rfl
  | succ fuel ih =>
    intro l h
    cases l with
    | nil => rfl
    | cons c rest =>
      have htail : ∀ t, t <:+ rest → ∀ n, m t ≠ some (n + 1) :=
        fun t ht n => h t (ht.trans (List.suffix_cons c rest)) n
      simp only [subAllGo]
      cases hmc : m (c :: rest) with
      | none => simp only [ih rest htail]
      | some n =>
        cases n with
        | zero => simp only [ih rest htail]
        | succ k => exact absurd hmc (h (c :: rest) (List.suffix_refl _) k)

theorem subAll_id (m : List Char → Option Nat) (repl : List Char) (l : List Char)
    (h : ∀ t, t <:+ l → ∀ n, m t ≠ some (n + 1)) : subAll m repl l = l :=
  subAllGo_id m repl l.length l h

/-- A case-insensitive prefix is a prefix of the lower-casings. -/
theorem isPrefixOfCI_lower : ∀ {p t : List Char}, isPrefixOfCI p t = true →
    pyLower p <+: pyLower t := by
  intro p
  induction p with
  | nil => intro t _; exact List.nil_prefix
  | cons a ps ih =>
    intro t h
    cases t with
    | nil => exact absurd h (by simp [isPrefixOfCI])
    | cons c cs =>
      simp only [isPrefixOfCI, Bool.and_eq_true, decide_eq_true_eq] at h
      obtain ⟨u, hu⟩ := ih h.2
      refine ⟨u, ?_⟩
      simp only [pyLower] at hu ⊢
      simp [h.1, hu]

/-- When the lower-cased trigger occurs nowhere in the text, the
case-insensitive literal matcher rejects every suffix. -/
theorem litCI_eq_none {trig : String} {l t : List Char}
    (hfree : ¬ (pyLower trig.data <:+: pyLower l)) (ht : t <:+ l) :
    litCI trig t = none := by
  unfold litCI
  rw [if_neg]
  intro hp
  exact hfree ((isPrefixOfCI_lower hp).isInfix.trans (ht.map Char.toLower).isInfix)

theorem pseq_none_left {m1 m2 : List Char → Option Nat} {t : List Char}
    (h : m1 t = none) : pseq m1 m2 t = none := by
  simp [pseq, h]

/-- A text without `<` has no HTML-tag match in any suffix. -/
theorem tryTag_none {l : List Char} (hfree : ∀ c ∈ l, c ≠ '<') :
    ∀ t, t <:+ l → ∀ n, tryTag t ≠ some (n + 1) := by
  intro t ht n
  cases t with
  | nil => simp [tryTag]
  | cons c rest =>
    have hc : c ≠ '<' := hfree c (ht.subset (List.mem_cons_self c rest))
    simp [tryTag, hc]

/-- The head literal of each boilerplate pattern: when none of these
occurs (case-insensitively), no boilerplate pattern can match. -/
def boilerTriggers : List String :=
  ["My Planner", "My Profile", "Recommendations", "Sign Out",
   "function", "var", "document.getElementById",
   "sessionStorage.getItem", "sessionStorage.setItem", "Vue.component",
   "ShowID", "exhid", "contactid", "chatid", "Copyright",
   "Privacy Policy", "Terms of Use", "Skip to main content",
   "Toggle navigation", "There are no available appointments for this exhibitor."]

/-- A text free of HTML tag openers and of every boilerplate pattern
head. -/
def boilerFree (l : List Char) : Prop :=
  (∀ c ∈ l, c ≠ '<') ∧
  ∀ trig ∈ boilerTriggers, ¬ (pyLower trig.data <:+: pyLower l)

instance (l : List Char) : Decidable (boilerFree l) :=
  inferInstanceAs (Decidable ((∀ c ∈ l, c ≠ '<') ∧
    ∀ trig ∈ boilerTriggers, ¬ (pyLower trig.data <:+: pyLower l)))

theorem boilerMatchers_none {l : List Char} (hfree : boilerFree l) :
    ∀ m ∈ boilerMatchers, ∀ t, t <:+ l → ∀ n, m t ≠ some (n + 1) := by
  intro m hm
  have htr := hfree.2
  have hlit : ∀ trig : String, trig ∈ boilerTriggers →
      ∀ t, t <:+ l → ∀ n, litCI trig t ≠ some (n + 1) := by
    intro trig hmem t ht n
    rw [litCI_eq_none (htr trig hmem) ht]
    simp
  have hps : ∀ (trig : String) (k : List Char → Option Nat), trig ∈ boilerTriggers →
      ∀ t, t <:+ l → ∀ n, pseq (litCI trig) k t ≠ some (n + 1) := by
    intro trig k hmem t ht n
    rw [pseq_none_left (litCI_eq_none (htr trig hmem) ht)]
    simp
  simp only [boilerMatchers, List.mem_cons, List.not_mem_nil, or_false] at hm
  rcases hm with rfl | rfl | rfl | rfl | rfl | rfl | rfl | rfl | rfl | rfl |
    rfl | rfl | rfl | rfl | rfl | rfl | rfl | rfl | rfl | rfl
  · exact hlit "My Planner" (by decide)
  · exact hlit "My Profile" (by decide)
  · exact hlit "Recommendations" (by decide)
  · exact hlit "Sign Out" (by decide)
  · exact hps "function" _ (by decide)
  · exact hps "var" _ (by decide)
  · exact hps "document.getElementById" _ (by decide)
  · exact hps "sessionStorage.getItem" _ (by decide)
  · exact hps "sessionStorage.setItem" _ (by decide)
  · exact hps "Vue.component" _ (by decide)
  · exact hlit "ShowID" (by decide)
  · exact hlit "exhid" (by decide)
  · exact hlit "contactid" (by decide)
  · exact hlit "chatid" (by decide)
  · exact hps "Copyright" _ (by decide)
  · exact hlit "Privacy Policy" (by decide)
  · exact hlit "Terms of Use" (by decide)
  · exact hlit "Skip to main content" (by decide)
  · exact hlit "Toggle navigation" (by decide)
  · exact hlit "There are no available appointments for this exhibitor." (by decide)

theorem foldl_subAll_id {ms : List (List Char → Option Nat)} {l : List Char}
    (h : ∀ m ∈ ms, subAll m [] l = l) :
    ms.foldl (fun acc m => subAll m [] acc) l = l := by
  induction ms with
  | nil => rfl
  | cons m ms ih =>
    simp only [List.foldl_cons, h m (List.mem_cons_self m ms)]
    exact ih (fun m' hm' => h m' (List.mem_cons_of_mem m hm'))

/-- Fuel irrelevance for the whitespace-collapse pass. -/
theorem collapseWsGo_eq : ∀ (fuel fuel' : Nat) (l : List Char), l.length ≤ fuel →
    l.length ≤ fuel' → collapseWsGo fuel l = collapseWsGo fuel' l := by
  intro fuel
  induction fuel with
  | zero =>
    intro fuel' l h _
    have hl : l = [] := List.length_eq_zero.mp (Nat.le_zero.mp h)
    subst hl
    cases fuel' <;> rfl
  | succ fuel ih =>
    intro fuel' l h h'
    cases l with
    | nil => cases fuel' <;> rfl
    | cons c rest =>
      cases fuel' with
      | zero => simp at h'
      | succ fuel'' =>
        simp only [collapseWsGo]
        by_cases hc : c.isWhitespace
        · rw [if_pos hc, if_pos hc]
          have hlen : (rest.dropWhile Char.isWhitespace).length ≤ rest.length :=
            (List.dropWhile_suffix _).length_le
          have h1 : (rest.dropWhile Char.isWhitespace).length ≤ fuel := by
            simp only [List.length_cons] at h; omega
          have h2 : (rest.dropWhile Char.isWhitespace).length ≤ fuel'' := by
            simp only [List.length_cons] at h'; omega
          rw [ih fuel'' _ h1 h2]
        · rw [if_neg hc, if_neg hc]
          have h1 : rest.length ≤ fuel := by simp only [List.length_cons] at h; omega
          have h2 : rest.length ≤ fuel'' := by simp only [List.length_cons] at h'; omega
          rw [ih fuel'' rest h1 h2]

theorem collapseWs_cons (c : Char) (rest : List Char) : collapseWs (c :: rest) =
    if c.isWhitespace then ' ' :: collapseWs (rest.dropWhile Char.isWhitespace)
    else c :: collapseWs rest := by
  show collapseWsGo (rest.length + 1) (c :: rest) = _
  simp only [collapseWsGo]
  by_cases hc : c.isWhitespace
  · rw [if_pos hc, if_pos hc]
    have hlen : (rest.dropWhile Char.isWhitespace).length ≤ rest.length :=
      (List.dropWhile_suffix _).length_le
    rw [collapseWsGo_eq rest.length (rest.dropWhile Char.isWhitespace).length _ hlen le_rfl]
    rfl
  · rw [if_neg hc, if_neg hc]
    rfl

/-- The head of a list is not whitespace (vacuously true of `[]`). -/
def headNotWs : List Char → Bool
  | [] => true
  | c :: _ => !c.isWhitespace

/-- Whitespace-normal form: every whitespace character is `' '` and no
two whitespace characters are adjacent. -/
def wsNormB : List Char → Bool
  | [] => true
  | c :: rest =>
    (!c.isWhitespace || (c == ' ' && headNotWs rest)) && wsNormB rest

theorem wsNormB_cons_iff {c : Char} {rest : List Char} :
    wsNormB (c :: rest) = true ↔
      ((c.isWhitespace = false ∨ (c = ' ' ∧ headNotWs rest = true)) ∧
        wsNormB rest = true) := by
  simp [wsNormB, Bool.and_eq_true, Bool.or_eq_true]

theorem wsNormB_tail {c : Char} {rest : List Char} (h : wsNormB (c :: rest) = true) :
    wsNormB rest = true :=
  (wsNormB_cons_iff.mp h).2

theorem headNotWs_dropWhileWs : ∀ l : List Char,
    headNotWs (l.dropWhile Char.isWhitespace) = true
  | [] => rfl
  | c :: rest => by
    rw [List.dropWhile_cons]
    by_cases hc : c.isWhitespace
    · rw [if_pos hc]; exact headNotWs_dropWhileWs rest
    · rw [if_neg hc]; simpa [headNotWs] using hc

theorem headNotWs_collapseWsGo (fuel : Nat) (l : List Char)
    (h : headNotWs l = true) : headNotWs (collapseWsGo fuel l) = true := by
  cases fuel with
  | zero => exact h
  | succ fuel =>
    cases l with
    | nil => rfl
    | cons c rest =>
      have hc : c.isWhitespace = false := by simpa [headNotWs] using h
      simp only [collapseWsGo, hc]
      exact h

theorem wsNormB_collapseWsGo : ∀ (fuel : Nat) (l : List Char), l.length ≤ fuel →
    wsNormB (collapseWsGo fuel l) = true := by
  intro fuel
  induction fuel with
  | zero =>
    intro l h
    have hl : l = [] := List.length_eq_zero.mp (Nat.le_zero.mp h)
    subst hl; rfl
  | succ fuel ih =>
    intro l h
    cases l with
    | nil => rfl
    | cons c rest =>
      simp only [collapseWsGo]
      by_cases hc : c.isWhitespace
      · rw [if_pos hc]
        apply wsNormB_cons_iff.mpr
        constructor
        · right
          exact ⟨rfl, headNotWs_collapseWsGo fuel _ (headNotWs_dropWhileWs rest)⟩
        · apply ih
          have : (rest.dropWhile Char.isWhitespace).length ≤ rest.length :=
            (List.dropWhile_suffix Char.isWhitespace).length_le
          simp only [List.length_cons] at h; omega
      · rw [if_neg hc]
        apply wsNormB_cons_iff.mpr
        refine ⟨Or.inl (by simpa using hc), ?_⟩
        apply ih
        simp only [List.length_cons] at h; omega

theorem wsNormB_collapseWs (l : List Char) : wsNormB (collapseWs l) = true :=
  wsNormB_collapseWsGo l.length l le_rfl

/-- A whitespace-normal text is a fixed point of the collapse pass. -/
theorem collapse_of_wsNormB : ∀ l : List Char, wsNormB l = true → collapseWs l = l
  | [], _ => rfl
  | c :: rest, h => by
    obtain ⟨h1, h2⟩ := wsNormB_cons_iff.mp h
    rw [collapseWs_cons]
    by_cases hc : c.isWhitespace
    · rw [if_pos hc]
      have hcsp : c = ' ' ∧ headNotWs rest = true := by
        rcases h1 with h1 | h1
        · rw [h1] at hc; exact absurd hc (by simp)
        · exact h1
      have hdrop : rest.dropWhile Char.isWhitespace = rest := by
        cases rest with
        | nil => rfl
        | cons d ds =>
          have hd : d.isWhitespace = false := by simpa [headNotWs] using hcsp.2
          simp [List.dropWhile_cons, hd]
      rw [hdrop, collapse_of_wsNormB rest h2, hcsp.1]
    · rw [if_neg hc, collapse_of_wsNormB rest h2]

theorem headNotWs_take (n : Nat) (l : List Char) (h : headNotWs l = true) :
    headNotWs (l.take n) = true := by
  cases n with
  | zero => rfl
  | succ m =>
    cases l with
    | nil => rfl
    | cons d ds => simpa [headNotWs, List.take_succ_cons] using h

theorem wsNormB_take : ∀ (n : Nat) (l : List Char), wsNormB l = true →
    wsNormB (l.take n) = true
  | 0, _, _ => rfl
  | _ + 1, [], _ => rfl
  | n + 1, c :: rest, h => by
    obtain ⟨h1, h2⟩ := wsNormB_cons_iff.mp h
    rw [List.take_succ_cons]
    apply wsNormB_cons_iff.mpr
    refine ⟨?_, wsNormB_take n rest h2⟩
    rcases h1 with h1 | h1
    · exact Or.inl h1
    · exact Or.inr ⟨h1.1, headNotWs_take n rest h1.2⟩

theorem wsNormB_dropWhile (p : Char → Bool) : ∀ l : List Char, wsNormB l = true →
    wsNormB (l.dropWhile p) = true
  | [], h => h
  | c :: rest, h => by
    rw [List.dropWhile_cons]
    by_cases hp : p c
    · rw [if_pos hp]; exact wsNormB_dropWhile p rest (wsNormB_tail h)
    · rw [if_neg hp]; exact h

theorem wsNormB_rdropWhileP (p : Char → Bool) (l : List Char)
    (h : wsNormB l = true) : wsNormB (rdropWhileP p l) = true := by
  have hpre : rdropWhileP p l <+: l := List.rdropWhile_prefix p l
  rw [List.prefix_iff_eq_take.mp hpre]
  exact wsNormB_take _ l h

theorem wsNormB_stripL (l : List Char) (h : wsNormB l = true) :
    wsNormB (stripL l) = true :=
  wsNormB_rdropWhileP _ _ (wsNormB_dropWhile _ l h)

theorem dropWhile_cons_eq_self {p : Char → Bool} {c : Char} {rest : List Char}
    (h : List.dropWhile p (c :: rest) = c :: rest) : p c = false := by
  by_contra hp
  have hp' : p c = true := by simpa using hp
  rw [List.dropWhile_cons, if_pos hp'] at h
  have hlen := congrArg List.length h
  have hle : (rest.dropWhile p).length ≤ rest.length :=
    (List.dropWhile_suffix p).length_le
  simp only [List.length_cons] at hlen
  omega

/-- If the left strip fixes `l`, it also fixes any right strip of `l`. -/
theorem dropWhile_rdropWhileP {p q : Char → Bool} {l : List Char}
    (h : l.dropWhile p = l) :
    (rdropWhileP q l).dropWhile p = rdropWhileP q l := by
  cases hr : rdropWhileP q l with
  | nil => rfl
  | cons c u =>
    have hpre : rdropWhileP q l <+: l := List.rdropWhile_prefix q l
    rw [hr] at hpre
    obtain ⟨v, hv⟩ := hpre
    have hc : p c = false := by
      have hl := h
      rw [← hv] at hl
      exact dropWhile_cons_eq_self hl
    rw [List.dropWhile_cons, if_neg (by simp [hc])]

/-- Python `strip()` is idempotent. -/
theorem stripL_idem (l : List Char) : stripL (stripL l) = stripL l := by
  unfold stripL
  rw [dropWhile_rdropWhileP (List.dropWhile_idempotent _ _)]
  exact List.rdropWhile_idempotent _ _

set_option maxHeartbeats 1000000

/-- The non-description branch of `clean_text`, unfolded. -/
theorem cleanTextL_false (l : List Char) : cleanTextL l false =
    stripL (stripL (collapseWs (boilerMatchers.foldl (fun acc m => subAll m [] acc)
      (subAll tryTag [' '] l)))) := rfl

theorem cleanText_mk (t : String) : cleanText t false = String.mk (cleanTextL t.data false) :=
  rfl

theorem cleanText_data (t : String) : (cleanText t false).data = cleanTextL t.data false := by
  rw [cleanText_mk]

/-- C10 counterexamples: `clean_text` is not idempotent, for either value
of `is_description`.  Removing the boilerplate "My Planner" from
"My PlaMy Plannernner" splices the remainder into a fresh "My Planner"
that only a second pass removes; and in the description branch the final
`strip()` of "abcdefgh ij@ @@"'s first pass exposes a trailing "@" that
only the second pass's edge trim removes. -/
theorem c10_counterexample :
    (cleanText (cleanText "My PlaMy Plannernner" false) false ≠
      cleanText "My PlaMy Plannernner" false) ∧
    (cleanText (cleanText "abcdefgh ij@ @@" true) true ≠
      cleanText "abcdefgh ij@ @@" true) := by
  constructor <;> decide

/-- C10 (amended): on non-description text, `clean_text` is idempotent
whenever its output is free of `<` and of every boilerplate pattern head
(case-insensitively) — then the tag pass, the boilerplate passes, the
whitespace collapse and the strips of a second application are all the
identity. -/
theorem c10_clean_text_idem (s : String)
    (hfree : boilerFree (cleanText s false).data) :
    cleanText (cleanText s false) false = cleanText s false := by
  have hO : (cleanText s false).data =
      stripL (collapseWs (boilerMatchers.foldl (fun acc m => subAll m [] acc)
        (subAll tryTag [' '] s.data))) := by
    rw [cleanText_data, cleanTextL_false, stripL_idem]
  have hws : wsNormB (cleanText s false).data = true := by
    rw [hO]; exact wsNormB_stripL _ (wsNormB_collapseWs _)
  have htag : subAll tryTag [' '] (cleanText s false).data = (cleanText s false).data :=
    subAll_id _ _ _ (tryTag_none hfree.1)
  have hfold : boilerMatchers.foldl (fun acc m => subAll m [] acc)
      (cleanText s false).data = (cleanText s false).data :=
    foldl_subAll_id (fun m hm => subAll_id _ _ _ (boilerMatchers_none hfree m hm))
  have hcol : collapseWs (cleanText s false).data = (cleanText s false).data :=
    collapse_of_wsNormB _ hws
  have hstrip : stripL (cleanText s false).data = (cleanText s false).data := by
    rw [hO]
    exact stripL_idem _
  rw [cleanText_mk (cleanText s false), cleanTextL_false, htag, hfold, hcol, hstrip, hstrip]

theorem c10_clean_text_idem_witness :
    boilerFree (cleanText "Hello world of signage printing" false).data ∧
      cleanText (cleanText "Hello world of signage printing" false) false =
        cleanText "Hello world of signage printing" false :=
  ⟨by decide, c10_clean_text_idem "Hello world of signage printing" (by decide)⟩

end SalesAgent
